import Mathlib

/-!
Verification of the streaming JSON extraction-and-projection pipeline of the
integration-huron-person repository: the JsonParser, JsonFieldFilter and
AxiosResponseStreamFilter classes under src/stream, embedded shallowly as
executable Lean functions over a model of JavaScript values.
-/

/-- A JavaScript runtime value, as produced by JSON parsing and manipulated by
the field filter.  Besides the JSON constructors it has an explicit
`undef` value (JavaScript undefined, used for array holes and absent
properties), and arrays carry both their indexed elements and any
string-keyed own properties a plain assignment may have attached to them. -/
inductive JVal where
  | undef : JVal
  | jnull : JVal
  | jbool (b : Bool) : JVal
  | jnum (n : Int) : JVal
  | jstr (s : String) : JVal
  | jobj (props : List (String × JVal)) : JVal
  | jarr (elems : List JVal) (props : List (String × JVal)) : JVal

namespace JVal

mutual

/-- Decidable equality of values (hand-rolled: the nested inductive defeats
the derive handler). -/
def decEqVal : (a b : JVal) → Decidable (a = b)
  | .undef, .undef => isTrue rfl
  | .jnull, .jnull => isTrue rfl
  | .jbool a, .jbool b =>
    match decEq a b with
    | isTrue h => isTrue (h ▸ rfl)
    | isFalse h => isFalse (fun e => h (by injection e))
  | .jnum a, .jnum b =>
    match decEq a b with
    | isTrue h => isTrue (h ▸ rfl)
    | isFalse h => isFalse (fun e => h (by injection e))
  | .jstr a, .jstr b =>
    match decEq a b with
    | isTrue h => isTrue (h ▸ rfl)
    | isFalse h => isFalse (fun e => h (by injection e))
  | .jobj p, .jobj q =>
    match decEqProps p q with
    | isTrue h => isTrue (h ▸ rfl)
    | isFalse h => isFalse (fun e => h (by injection e))
  | .jarr e1 p1, .jarr e2 p2 =>
    match decEqList e1 e2, decEqProps p1 p2 with
    | isTrue h1, isTrue h2 => isTrue (h1 ▸ h2 ▸ rfl)
    | isFalse h1, _ => isFalse (fun e => h1 (by injection e))
    | _, isFalse h2 => isFalse (fun e => h2 (by injection e))
  | .undef, .jnull | .undef, .jbool _ | .undef, .jnum _ | .undef, .jstr _
  | .undef, .jobj _ | .undef, .jarr _ _ => isFalse (fun h => nomatch h)
  | .jnull, .undef | .jnull, .jbool _ | .jnull, .jnum _ | .jnull, .jstr _
  | .jnull, .jobj _ | .jnull, .jarr _ _ => isFalse (fun h => nomatch h)
  | .jbool _, .undef | .jbool _, .jnull | .jbool _, .jnum _ | .jbool _, .jstr _
  | .jbool _, .jobj _ | .jbool _, .jarr _ _ => isFalse (fun h => nomatch h)
  | .jnum _, .undef | .jnum _, .jnull | .jnum _, .jbool _ | .jnum _, .jstr _
  | .jnum _, .jobj _ | .jnum _, .jarr _ _ => isFalse (fun h => nomatch h)
  | .jstr _, .undef | .jstr _, .jnull | .jstr _, .jbool _ | .jstr _, .jnum _
  | .jstr _, .jobj _ | .jstr _, .jarr _ _ => isFalse (fun h => nomatch h)
  | .jobj _, .undef | .jobj _, .jnull | .jobj _, .jbool _ | .jobj _, .jnum _
  | .jobj _, .jstr _ | .jobj _, .jarr _ _ => isFalse (fun h => nomatch h)
  | .jarr _ _, .undef | .jarr _ _, .jnull | .jarr _ _, .jbool _
  | .jarr _ _, .jnum _ | .jarr _ _, .jstr _ | .jarr _ _, .jobj _ =>
    isFalse (fun h => nomatch h)

def decEqProps : (p q : List (String × JVal)) → Decidable (p = q)
  | [], [] => isTrue rfl
  | [], _ :: _ => isFalse (fun h => nomatch h)
  | _ :: _, [] => isFalse (fun h => nomatch h)
  | (k, v) :: p, (k2, v2) :: q =>
    match decEq k k2, decEqVal v v2, decEqProps p q with
    | isTrue h1, isTrue h2, isTrue h3 =>
      isTrue (by rw [h1, h2, h3])
    | isFalse h1, _, _ =>
      isFalse (fun e => h1 (by injection e with e1 e2; injection e1))
    | _, isFalse h2, _ =>
      isFalse (fun e => h2 (by injection e with e1 e2; injection e1))
    | _, _, isFalse h3 =>
      isFalse (fun e => h3 (by injection e))

def decEqList : (p q : List JVal) → Decidable (p = q)
  | [], [] => isTrue rfl
  | [], _ :: _ => isFalse (fun h => nomatch h)
  | _ :: _, [] => isFalse (fun h => nomatch h)
  | v :: p, v2 :: q =>
    match decEqVal v v2, decEqList p q with
    | isTrue h1, isTrue h2 => isTrue (by rw [h1, h2])
    | isFalse h1, _ => isFalse (fun e => h1 (by injection e))
    | _, isFalse h2 => isFalse (fun e => h2 (by injection e))

end

instance : DecidableEq JVal := decEqVal

/-- JavaScript falsiness: undefined, null, false, 0 and the empty string. -/
def jsFalsy : JVal → Bool
  | .undef => true
  | .jnull => true
  | .jbool b => !b
  | .jnum n => n == 0
  | .jstr s => s == ""
  | _ => false

/-- `Array.isArray(v)`. -/
def isArr : JVal → Bool
  | .jarr _ _ => true
  | _ => false

/-- The test `value && typeof value === 'object'`: objects and arrays
(null is falsy, so it is excluded even though typeof null is 'object'). -/
def isObjLike : JVal → Bool
  | .jobj _ => true
  | .jarr _ _ => true
  | _ => false

end JVal

/-! ## String-level helpers

JavaScript string operations used by the source, modelled over `List Char`
so that everything reduces inside the kernel. -/

namespace JsStr

/-- Split a character list at every occurrence of a separator character,
keeping empty segments, like JavaScript `split('.')`. -/
def splitOnChar (sep : Char) : List Char → List (List Char)
  | [] => [[]]
  | c :: rest =>
    let r := splitOnChar sep rest
    if c = sep then [] :: r
    else
      match r with
      | [] => [[c]]
      | seg :: segs => (c :: seg) :: segs

/-- Does a pattern occur as a contiguous sublist (JavaScript includes)? -/
def hasSub (pat : List Char) : List Char → Bool
  | [] => pat.isEmpty
  | c :: rest => pat.isPrefixOf (c :: rest) || hasSub pat rest

/-- Remove the first occurrence of a pattern, like one-shot
`replace(pat, '')` on strings (no-op when the pattern is absent). -/
def removeFirst (pat : List Char) : List Char → List Char
  | [] => []
  | c :: rest =>
    if pat.isPrefixOf (c :: rest) then (c :: rest).drop pat.length
    else c :: removeFirst pat rest

/-- Index of the first occurrence of a character, like JavaScript
`indexOf` (callers only use it when the character is present). -/
def idxOfChar (ch : Char) : List Char → Nat
  | [] => 0
  | c :: rest => if c = ch then 0 else idxOfChar ch rest + 1

/-- JavaScript `String.prototype.substring(a, b)`: swaps the endpoints when
they are out of order and clamps them to the length. -/
def jsSubstring (l : List Char) (a b : Nat) : List Char :=
  let a2 := min (min a b) l.length
  let b2 := min (max a b) l.length
  (l.take b2).drop a2

end JsStr

/-! ## JavaScript Number() on strings

The filter classifies every path segment with `!isNaN(Number(part))` and
addresses arrays with `Number(part)`.  `jsNum` models `Number(string)`
exactly: `JSNum.int n` when the string denotes the finite integer `n`,
`JSNum.frac num k` when it denotes the finite non-integer `num / 10 ^ k`
(kept exact, with the power reduced so that `num` has no trailing zero
digit), `JSNum.inf pos` for the two infinities, and `JSNum.nan`
otherwise.  (Values are computed exactly rather than as 64-bit floats;
the claims only involve magnitudes far below any rounding.) -/

inductive JSNum where
  | nan : JSNum
  | int (n : Int) : JSNum
  | frac (num : Int) (k : Nat) : JSNum
  | inf (pos : Bool) : JSNum
  deriving DecidableEq

namespace JsStr

/-- The whitespace Number() strips (the ASCII part of StrWhiteSpaceChar). -/
def jsWhiteC (c : Char) : Bool :=
  c = ' ' || c = '\t' || c = '\n' || c = '\r' || c = '\x0b' || c = '\x0c'

/-- Trim leading and trailing JavaScript whitespace. -/
def jsTrim (l : List Char) : List Char :=
  ((l.dropWhile jsWhiteC).reverse.dropWhile jsWhiteC).reverse

def digitVal (c : Char) : Nat := c.toNat - '0'.toNat

def allDigits (l : List Char) : Bool := !l.isEmpty && l.all (fun c => c.isDigit)

def digitsToNat (l : List Char) : Nat := l.foldl (fun a c => a * 10 + digitVal c) 0

def hexDigitVal (c : Char) : Nat :=
  if c.isDigit then c.toNat - '0'.toNat
  else if 'a' ≤ c ∧ c ≤ 'f' then c.toNat - 'a'.toNat + 10
  else c.toNat - 'A'.toNat + 10

def isHexDigit (c : Char) : Bool := c.isDigit || ('a' ≤ c && c ≤ 'f') || ('A' ≤ c && c ≤ 'F')

def hexToNat (l : List Char) : Nat := l.foldl (fun a c => a * 16 + hexDigitVal c) 0

def isOctDigit (c : Char) : Bool := '0' ≤ c && c ≤ '7'

def octToNat (l : List Char) : Nat := l.foldl (fun a c => a * 8 + digitVal c) 0

def isBinDigit (c : Char) : Bool := c = '0' || c = '1'

def binToNat (l : List Char) : Nat := l.foldl (fun a c => a * 2 + (if c = '1' then 1 else 0)) 0

/-- The signless exponent part after an e/E: optional sign and digits. -/
def parseExp (l : List Char) : Option Int :=
  match l with
  | '+' :: d => if allDigits d then some (digitsToNat d) else none
  | '-' :: d => if allDigits d then some (-(digitsToNat d : Int)) else none
  | d => if allDigits d then some (digitsToNat d) else none

/-- The part before any exponent: digits with an optional decimal point
carrying a digit run on at least one side.  Returns the mantissa digits as
a Nat and the number of fractional digits. -/
def parseMantissa (m : List Char) : Option (Nat × Nat) :=
  match splitOnChar '.' m with
  | [i] => if allDigits i then some (digitsToNat i, 0) else none
  | [i, f] =>
    if (i.all (fun c => c.isDigit)) && (f.all (fun c => c.isDigit)) && !(i.isEmpty && f.isEmpty)
    then some (digitsToNat (i ++ f), f.length) else none
  | _ => none

/-- A StrUnsignedDecimalLiteral: digits, an optional decimal point with
digit run on at least one side, and an optional exponent.  Returns the
exact value as (mantissa digits as a Nat, number of fractional digits,
exponent). -/
def parseDec (l : List Char) : Option (Nat × Nat × Int) :=
  let expSplit := l.splitOnP (fun c => c = 'e' || c = 'E')
  match expSplit with
  | [m] => (parseMantissa m).map (fun p => (p.1, p.2, 0))
  | [m, e] => do
    let p ← parseMantissa m
    let ex ← parseExp e
    pure (p.1, p.2, ex)
  | _ => none

/-- Count the trailing zero digits of a numeral (structurally recursive on
a fuel argument instantiated with the number itself, which bounds the
digit count). -/
def tzerosAux : Nat → Nat → Nat
  | 0, _ => 0
  | fuel + 1, m => if m % 10 == 0 && m != 0 then tzerosAux fuel (m / 10) + 1 else 0

def tzeros (m : Nat) : Nat := tzerosAux m m

/-- Exact value of mantissa × 10 ^ (exponent − fractionDigits), classified
as integer or not; a non-integer keeps its exact value `num / 10 ^ k` with
the common powers of ten cancelled. -/
def decValue (sign : Int) (mantissa : Nat) (frac : Nat) (ex : Int) : JSNum :=
  if frac ≤ ex then
    .int (sign * mantissa * (10 : Int) ^ (ex - frac).toNat)
  else
    let d : Nat := 10 ^ ((frac : Int) - ex).toNat
    if mantissa % d = 0 then .int (sign * (mantissa / d : Nat))
    else
      let t := tzeros mantissa
      .frac (sign * (mantissa / 10 ^ t : Nat)) (((frac : Int) - ex).toNat - t)

/-- Number() on an already-trimmed string. -/
def jsNumCore (l : List Char) : JSNum :=
  match l with
  | [] => .int 0
  | '0' :: 'x' :: d => if !d.isEmpty && d.all isHexDigit then .int (hexToNat d) else .nan
  | '0' :: 'X' :: d => if !d.isEmpty && d.all isHexDigit then .int (hexToNat d) else .nan
  | '0' :: 'o' :: d => if !d.isEmpty && d.all isOctDigit then .int (octToNat d) else .nan
  | '0' :: 'O' :: d => if !d.isEmpty && d.all isOctDigit then .int (octToNat d) else .nan
  | '0' :: 'b' :: d => if !d.isEmpty && d.all isBinDigit then .int (binToNat d) else .nan
  | '0' :: 'B' :: d => if !d.isEmpty && d.all isBinDigit then .int (binToNat d) else .nan
  | _ =>
    let (sign, body) : Int × List Char :=
      match l with
      | '+' :: r => (1, r)
      | '-' :: r => (-1, r)
      | r => (1, r)
    if body = "Infinity".toList then .inf (sign == 1)
    else
      match parseDec body with
      | some (m, f, ex) => decValue sign m f ex
      | none => .nan

end JsStr

/-- The model of JavaScript `Number(part)` for a path-segment string. -/
def jsNum (s : String) : JSNum := JsStr.jsNumCore (JsStr.jsTrim s.toList)

/-- JavaScript `String()` of the finite non-integer number `num / 10 ^ k`
(with `num` not divisible by 10): the decimal positional form, switching
to the `d.ddde-p` exponential form below 1e-6 exactly as Number::toString
prescribes.  (Magnitudes at or above 1e21, the other exponential range,
cannot arise: every double that large is integral.)  This is the property
key a non-integer index addresses, as in `target[0.1]`. -/
def fracKey (num : Int) (k : Nat) : String :=
  let sgn := if num < 0 then "-" else ""
  let m := num.natAbs
  let den := 10 ^ k
  if den ≤ m * 10 ^ 6 then
    let frs := toString (m % den)
    let pad := String.mk (List.replicate (k - frs.length) '0')
    sgn ++ toString (m / den) ++ "." ++ pad ++ frs
  else
    let ds := (toString m).toList
    let p := k - (ds.length - 1)
    if ds.length = 1 then sgn ++ String.mk ds ++ "e-" ++ toString p
    else sgn ++ String.mk (ds.take 1) ++ "." ++ String.mk (ds.drop 1) ++ "e-" ++ toString p


/-! ## JsonFieldFilter.parsePath (src/stream/JsonFieldFilter.ts, lines 47-71) -/

namespace JsonFieldFilter

open JsStr

/-- One segment of a dot-split path, turned into tokens exactly as the
source does: a segment containing the literal characters left-bracket
star right-bracket contributes its base (if nonempty) and a star token;
otherwise a segment containing both brackets contributes its base (if
nonempty) and the text between the first left bracket and the first right
bracket; otherwise the segment itself. -/
def parseSegment (parts : List (List Char)) (seg : List Char) : List (List Char) :=
  let star : List Char := ['[', '*', ']']
  if hasSub star seg then
    let base := removeFirst star seg
    (if !base.isEmpty then parts ++ [base] else parts) ++ [['*']]
  else if seg.contains '[' && seg.contains ']' then
    let bracketIndex := idxOfChar '[' seg
    let base := seg.take bracketIndex
    let indexPart := jsSubstring seg (bracketIndex + 1) (idxOfChar ']' seg)
    (if !base.isEmpty then parts ++ [base] else parts) ++ [indexPart]
  else parts ++ [seg]

/-- JsonFieldFilter.parsePath: split on dots, keeping star and bracketed
index markers as separate tokens. -/
def parsePath (path : String) : List String :=
  ((splitOnChar '.' path.toList).foldl parseSegment []).map (fun l => String.mk l)


/-! ## JavaScript property and element access on the value model -/

open JVal

/-- `source.hasOwnProperty(part)` for a non-numeric, non-star part.  JSON
objects own exactly their keys; arrays own their length (their index
properties are only reachable through numeric parts, which never get
here). -/
def jsHasOwn : JVal → String → Bool
  | .jobj props, k => props.any (fun p => p.1 == k)
  | .jarr _ ps, k => k == "length" || ps.any (fun p => p.1 == k)
  | _, _ => false

/-- Property read `v[k]` (undefined when absent; primitives have no own
properties of interest here). -/
def jsGetProp : JVal → String → JVal
  | .jobj props, k => ((props.find? (fun p => p.1 == k)).map Prod.snd).getD .undef
  | .jarr es ps, k =>
    if k == "length" then .jnum es.length
    else ((ps.find? (fun p => p.1 == k)).map Prod.snd).getD .undef
  | _, _ => JVal.undef

/-- Update an association list at a key, keeping the key position if it is
already present (JavaScript property assignment), appending otherwise. -/
def setAssoc (props : List (String × JVal)) (k : String) (v : JVal) :
    List (String × JVal) :=
  if props.any (fun p => p.1 == k)
  then props.map (fun p => if p.1 == k then (k, v) else p)
  else props ++ [(k, v)]

/-- Resize a list of elements to a given length, padding with holes
(assigning `length` on a JavaScript array). -/
def resizeElems (es : List JVal) (n : Nat) : List JVal :=
  es.take n ++ List.replicate (n - es.length) JVal.undef

/-- Property write `v[k] = x` for a non-numeric key.  Assigning to a
property of a primitive throws a TypeError in strict mode (the compiled
code runs in strict mode), hence `none`. -/
def jsSetProp : JVal → String → JVal → Option JVal
  | .jobj props, k, v => some (.jobj (setAssoc props k v))
  | .jarr es ps, k, v =>
    if k == "length" then
      match v with
      | .jnum n => if 0 ≤ n then some (.jarr (resizeElems es n.toNat) ps) else none
      | _ => none
    else some (.jarr es (setAssoc ps k v))
  | _, _, _ => none

/-- Element read `v[n]` for a non-negative integer `n`: array element
(undefined beyond the length or at a hole), or the property named by the
decimal numeral on a plain object. -/
def jsGetIdx : JVal → Nat → JVal
  | .jarr es _, n => es.getD n .undef
  | .jobj props, n =>
    ((props.find? (fun p => p.1 == toString n)).map Prod.snd).getD .undef
  | _, _ => JVal.undef

/-- Set element `n` of a list, extending with holes if needed. -/
def padSet (es : List JVal) (n : Nat) (v : JVal) : List JVal :=
  if n < es.length then es.set n v
  else es ++ List.replicate (n - es.length) .undef ++ [v]

/-- Element write `v[n] = x` for a non-negative integer `n`. -/
def jsSetIdx : JVal → Nat → JVal → Option JVal
  | .jarr es ps, n, v => some (.jarr (padSet es n v) ps)
  | .jobj props, n, v => some (.jobj (setAssoc props (toString n) v))
  | _, _, _ => none

/-! ## JsonFieldFilter.buildStructureFromPath (lines 73-146)

Pure rendering of the in-place construction: the function returns the
updated target.  `none` models a thrown TypeError (the only reachable ones
are `target.push` when the wildcard branch finds a non-array target, and
strict-mode assignment to a property of a primitive).  The source file
passes `(pathParts, index)` and recurses on `index + 1`; here the
remaining suffix `parts` plays the role of `pathParts.slice(index)`. -/

/-- Sequence a fallible map over a list, failing at the first failure
(the effect of a forEach whose body can throw, and of collecting data
events that can be interrupted by an error). -/
def mapOption {a b : Type} (f : a → Option b) : List a → Option (List b)
  | [] => some []
  | x :: xs =>
    match f x with
    | some y =>
      match mapOption f xs with
      | some ys => some (y :: ys)
      | none => none
    | none => none

/-- The conditional of the wildcard merge loop: `if (target[i] ===
undefined) { target[i] = {}; }` before recursing into `target[i]`. -/
def mergeSlot (t : JVal) : JVal := if t = JVal.undef then JVal.jobj [] else t

/-- The merge loop of the wildcard branch: `source.forEach((sourceItem, i)
=> ...)` walks every source index against the existing target element at
that index (undefined beyond the target's length), replacing missing slots
by fresh objects and recursing via the supplied continuation; target
elements beyond the source length are untouched. -/
def mergeRun (f : JVal → JVal → Option JVal) : List JVal → List JVal → Option (List JVal)
  | [], telems => some telems
  | s :: ss, telems =>
    match f s (mergeSlot (telems.headD .undef)) with
    | some t2 =>
      match mergeRun f ss telems.tail with
      | some ts => some (t2 :: ts)
      | none => none
    | none => none

/-- The container the literal branch creates for a missing intermediate
property: an array when the next token is the star or numeric, an object
otherwise. -/
def nextContainer (rest : List String) : JVal :=
  match rest.head? with
  | some nxt =>
    if nxt == "*" || jsNum nxt ≠ JSNum.nan then JVal.jarr [] [] else JVal.jobj []
  | none => JVal.jobj []

/-- The body of buildStructureFromPath, structurally recursive on a fuel
argument that the wrapper instantiates with `parts.length`: every
recursive call of the source consumes exactly one path token, so the fuel
invariantly equals the length of the remaining token list and the
fuel-exhausted case is unreachable. -/
def buildAux : Nat → JVal → List String → JVal → Option JVal
  | _, _, [], target => some target
  | 0, _, _ :: _, _ => none
  | fuel + 1, source, part :: rest, target =>
    let isLast := rest.isEmpty
    if part == "*" then
      -- wildcard: we expect the source to be an array here
      match source with
      | .jarr selems _ =>
        match target with
        | .jarr telems tprops =>
          -- target is already an array: merge into existing items
          match mergeRun (fun si t => buildAux fuel si rest t) selems telems with
          | some ts => some (.jarr ts tprops)
          | none => none
        | _ =>
          -- non-array target: the graft `target.length = 0;
          -- target.push(...targetArray)` calls push on a plain object and
          -- throws a TypeError
          none
      | _ => some target
    else if jsNum part ≠ JSNum.nan then
      -- specific array index: part is numeric
      match source with
      | .jarr selems sprops =>
        match jsNum part with
        | .int n =>
          if 0 ≤ n ∧ n < (selems.length : Int) then
            let sourceItem := selems.getD n.toNat .undef
            if isLast then jsSetIdx target n.toNat sourceItem
            else
              let t0 := jsGetIdx target n.toNat
              let t1 := if jsFalsy t0 then JVal.jobj [] else t0
              match buildAux fuel sourceItem rest t1 with
              | some t2 => jsSetIdx target n.toNat t2
              | none => none
          else some target   -- index out of bounds: do not modify the target
        | .frac num k =>
          -- a finite non-integer index num / 10 ^ k: the bounds test
          -- compares the exact value against 0 and source.length, and an
          -- in-bounds one addresses the array as the plain property named
          -- by its decimal string (source[0.1], target[0.1])
          if 0 ≤ num ∧ num < (selems.length : Int) * ((10 : Int) ^ k) then
            let key := fracKey num k
            let sourceItem := jsGetProp (.jarr selems sprops) key
            if isLast then jsSetProp target key sourceItem
            else
              let t0 := jsGetProp target key
              let t1 := if jsFalsy t0 then JVal.jobj [] else t0
              match buildAux fuel sourceItem rest t1 with
              | some t2 => jsSetProp target key t2
              | none => none
          else some target
        | .inf _ =>
          -- an infinite index fails the bounds test (positive: not below
          -- the length; negative: not at least 0); no structural change
          some target
        | .nan => some target   -- unreachable: the branch guard excludes NaN
      | _ => some target
    else
      -- regular property
      if isObjLike source && jsHasOwn source part then
        let sourceValue := jsGetProp source part
        if isLast then jsSetProp target part sourceValue
        else
          let t0 := jsGetProp target part
          let t1 := if jsFalsy t0 then nextContainer rest else t0
          match buildAux fuel sourceValue rest t1 with
          | some t2 => jsSetProp target part t2
          | none => none
      else some target

/-- JsonFieldFilter.buildStructureFromPath as called with a token suffix
(`pathParts.slice(index)` of the original `(pathParts, index)` pair). -/
def buildStructureFromPath (source : JVal) (parts : List String) (target : JVal) :
    Option JVal :=
  buildAux parts.length source parts target

/-! ## JsonFieldFilter.cleanupEmptyStructures (lines 148-182)

The source walks `Object.keys(obj)` in reverse and deletes entries in
place; since each entry's fate depends only on its own (recursively
cleaned) value common, forward processing produces the same contents.  For
an array reached through `cleanupEmptyStructures` itself (a nested array),
`Object.keys` enumerates its index properties, so a deleted element leaves
a hole; for an array met as a property value, the whole array is deleted
or kept based on its (cleaned) elements. -/

end JsonFieldFilter

namespace JVal

/-- `typeof item === 'object' && item !== null && Object.keys(item).length
=== 0`: an object with no keys, or an array with only holes and no extra
properties. -/
def isEmptyComposite : JVal → Bool
  | .jobj props => props.isEmpty
  | .jarr es ps => es.all (fun e => e == .undef) && ps.isEmpty
  | _ => false

end JVal

namespace JsonFieldFilter

mutual

/-- The in-place effect of `cleanupEmptyStructures(v)` on the value it is
called with (deletions happen in the keyed entries below `v`). -/
def cleanupEmptyStructures : JVal → JVal
  | .jobj props => .jobj (cleanupProps props)
  | .jarr es ps => .jarr (cleanupKeyElems es) (cleanupProps ps)
  | v => v

/-- Per-key processing of the loop body; keys whose entry is deleted are
dropped. -/
def cleanupProps : List (String × JVal) → List (String × JVal)
  | [] => []
  | (k, v) :: rest =>
    match cleanupEntry v with
    | some v2 => (k, v2) :: cleanupProps rest
    | none => cleanupProps rest

/-- The body of the key loop for one value: `none` means `delete obj[key]`.
An empty array is deleted; a non-empty array has its structured items
cleaned and is deleted when every item is undefined, null or an empty
composite; an object value is cleaned recursively and deleted when no
keys remain; anything else (including null, which fails the `value &&`
test) is kept as-is. -/
def cleanupEntry : JVal → Option JVal
  | .jarr es ps =>
    if es.isEmpty then none
    else
      let es2 := cleanupItems es
      if es2.all (fun it => it == JVal.undef || it == JVal.jnull || JVal.isEmptyComposite it)
      then none
      else some (.jarr es2 ps)
  | .jobj props =>
    let props2 := cleanupProps props
    if props2.isEmpty then none else some (.jobj props2)
  | v => some v

/-- `value.forEach(item => { if (item && typeof item === 'object')
cleanupEmptyStructures(item) })`: items of a kept array are cleaned inside
but never deleted at this level. -/
def cleanupItems : List JVal → List JVal
  | [] => []
  | it :: rest =>
    (if JVal.isObjLike it then cleanupEmptyStructures it else it) :: cleanupItems rest

/-- Element processing for an array reached by the recursive call itself:
`Object.keys` lists the indices, and `delete obj[key]` on an index leaves
a hole (`undef`); holes themselves are not enumerated and stay. -/
def cleanupKeyElems : List JVal → List JVal
  | [] => []
  | it :: rest => ((cleanupEntry it).getD .undef) :: cleanupKeyElems rest

end

/-! ## JsonFieldFilter._transform (lines 15-31)

The filter builds a fresh target per source value, applies every field
path, cleans up, and pushes the result; non-object input passes through.
`none` models a thrown error (no value is pushed and the stream errors).
The optional customFilterCase hook is not part of any configuration
studied here and is omitted. -/

def extractField (source : JVal) (fieldPath : String) (target : JVal) : Option JVal :=
  buildStructureFromPath source (parsePath fieldPath) target

/-- `this.fieldsToKeep.forEach(fieldPath => this.extractField(obj,
fieldPath, filtered))`: each field path writes into the same shared
target; a thrown error aborts the whole transform. -/
def applyFields (source : JVal) (fields : List String) (target : JVal) : Option JVal :=
  match fields with
  | [] => some target
  | f :: fs =>
    match extractField source f target with
    | some t2 => applyFields source fs t2
    | none => none

def transformValue (fieldsToKeep : List String) (obj : JVal) : Option JVal :=
  if JVal.isObjLike obj then
    match applyFields obj fieldsToKeep (JVal.jobj []) with
    | some filtered => some (cleanupEmptyStructures filtered)
    | none => none
  else some obj

end JsonFieldFilter

section ScenarioChecks

open JVal JsonFieldFilter

/-- The running example document of the specification. -/
def bugsDoc : JVal :=
  .jobj [("personid", .jstr "U1"),
         ("personBasic", .jobj [("names",
            .jarr [.jobj [("firstName", .jstr "Bugs"), ("lastName", .jstr "Bunny")]] [])]),
         ("extra", .jstr "x")]

end ScenarioChecks

/-! ## JsonParser (src/stream/JsonParser.ts)

The constructor matches the extract path against the regular expression
caret (.+) backslash-bracket backslash-star backslash-bracket dollar.
With the fixed three-character suffix the decomposition is forced, so the
match succeeds exactly when the string is longer than the marker, ends
with it, and the prefix contains no line terminator (an unflagged dot
matches any character except a line terminator). -/

namespace JsonParser

def isLineTerm (c : Char) : Bool :=
  c = '\n' || c = '\r' || c = ' ' || c = ' '

/-- The regex match of line 36: `some jsonPath` when the path matches,
with `jsonPath` the captured group (the path without the marker). -/
def extractPathMatch (s : String) : Option String :=
  let l := s.toList
  let n := l.length
  if 3 < n && (l.drop (n - 3) = ['[', '*', ']']) && (l.take (n - 3)).all (fun c => !isLineTerm c)
  then some (String.mk (l.take (n - 3)))
  else none

/-- The two pipeline shapes the constructor can build: a bare
streamArray over the whole document, or pick-then-streamArray. -/
inductive PipelineMode where
  | rootArray : PipelineMode
  | pick (jsonPath : String) : PipelineMode
  deriving DecidableEq

/-- JsonParser's constructor, up to its thrown configuration error:
reject paths the regex does not match, stream the whole document when the
captured path is empty, otherwise pick the captured path. -/
def construct (extractPath : String) : Except String PipelineMode :=
  match extractPathMatch extractPath with
  | none =>
    .error ("extractPath must end with [*] to indicate array extraction: " ++ extractPath)
  | some jsonPath =>
    if jsonPath == "" then .ok .rootArray else .ok (.pick jsonPath)

/-- Modelled from the spec: the pick stage of the stream-json library (not
part of this repository) selects the value reached from the document root
by the dot-separated sequence of property names of the filter string; the
sequence is empty for no navigation. -/
def resolvePath : JVal → List String → Option JVal
  | doc, [] => some doc
  | .jobj props, k :: rest =>
    match (props.find? (fun p => p.1 == k)).map Prod.snd with
    | some v => resolvePath v rest
    | none => none
  | _, _ :: _ => none

/-- The dot-separated key list of a pick filter string. -/
def pathKeys (p : String) : List String :=
  (JsStr.splitOnChar '.' p.toList).map (fun l => String.mk l)

/-- The value the pipeline's streamArray stage receives, if any. -/
def pickTarget : PipelineMode → JVal → Option JVal
  | .rootArray, doc => some doc
  | .pick p, doc => resolvePath doc (pathKeys p)

/-- The data handler of lines 54-59 combined with Node stream semantics:
for each `{ key, value }` chunk of streamArray the handler runs
`if (data.value !== undefined) this.push(data.value)`, and pushing the
JavaScript null signals end-of-stream to the readable side, so nothing
after it is ever delivered. -/
def emitValues : List JVal → List JVal
  | [] => []
  | e :: rest =>
    if e = JVal.undef then emitValues rest
    else if e = JVal.jnull then []
    else e :: emitValues rest

/-- The sequence of source values the parser delivers downstream for a
well-formed document: `none` when streamArray receives a non-array value
(a parse error event), `some []` when the pick matches nothing. -/
def emit (mode : PipelineMode) (doc : JVal) : Option (List JVal) :=
  match pickTarget mode doc with
  | some (.jarr es _) => some (emitValues es)
  | some _ => none
  | none => some []

end JsonParser

/-! ## AxiosResponseStreamFilter.processResponse (lines 60-78)

The orchestrator pipes the response byte stream through a JsonParser
constructed with extract path response[*] and a JsonFieldFilter with the
configured fields, collects every filtered object, and resolves with
`{ response: filteredObjects }`; any error event rejects instead
(discarding everything), modelled by `none`.  The document argument
stands for the fully received byte stream's JSON value. -/

def processResponse (fieldsToKeep : List String) (doc : JVal) : Option JVal :=
  match JsonParser.construct "response[*]" with
  | .error _ => none
  | .ok mode =>
    match JsonParser.emit mode doc with
    | none => none
    | some emitted =>
      match JsonFieldFilter.mapOption (JsonFieldFilter.transformValue fieldsToKeep) emitted with
      | none => none
      | some outs => some (.jobj [("response", .jarr outs [])])



/-! ## Chunked ingestion (JsonParser._transform / _flush, lines 66-79)

`_transform` hands every arriving chunk verbatim to the streaming parser
(`this.jsonParser.write(chunk)`) and `_flush` ends it; the incremental
tokenizer that carries nesting depth, string/escape state and unfinished
numbers across chunk boundaries lives in the stream-json library, outside
this repository.  Modelled from the spec: a character-at-a-time state
machine that buffers the bytes of the current target-array element (depth
tracking for objects and arrays, string and escape state so that brackets
inside strings are not structure, numbers completed only at a delimiter)
and emits each element's text when it closes.  Ingestion is a fold of the
per-character step over the chunk, exactly as write() consumes its
input. -/

namespace ChunkMachine

structure MState where
  inStr : Bool
  esc : Bool
  depth : Nat
  buf : List Char
  out : List (List Char)
  deriving DecidableEq

def initState : MState := ⟨false, false, 0, [], []⟩

/-- Complete the buffered element, dropping surrounding whitespace; a
buffer with no visible characters (as between the final comma-less
element and the closing bracket) emits nothing. -/
def flushElem (st : MState) : MState :=
  let t := JsStr.jsTrim st.buf
  if t.isEmpty then { st with buf := [] }
  else { st with buf := [], out := st.out ++ [t] }

def step (st : MState) (c : Char) : MState :=
  if st.inStr then
    if st.esc then { st with esc := false, buf := st.buf ++ [c] }
    else if c = '\\' then { st with esc := true, buf := st.buf ++ [c] }
    else if c = '"' then { st with inStr := false, buf := st.buf ++ [c] }
    else { st with buf := st.buf ++ [c] }
  else
    match st.depth with
    | 0 => if c = '[' then { st with depth := 1 } else st
    | 1 =>
      if c = ',' then flushElem st
      else if c = ']' then { (flushElem st) with depth := 0 }
      else if c = '[' || c = '{' then { st with depth := 2, buf := st.buf ++ [c] }
      else if c = '"' then { st with inStr := true, buf := st.buf ++ [c] }
      else { st with buf := st.buf ++ [c] }
    | d + 2 =>
      if c = ']' || c = '}' then { st with depth := d + 1, buf := st.buf ++ [c] }
      else if c = '[' || c = '{' then { st with depth := d + 3, buf := st.buf ++ [c] }
      else if c = '"' then { st with inStr := true, buf := st.buf ++ [c] }
      else { st with buf := st.buf ++ [c] }

/-- One ingestion call: `this.jsonParser.write(chunk)`. -/
def ingest (st : MState) (chunk : List Char) : MState := chunk.foldl step st

/-- Feed a whole sequence of chunks, then read off the emitted elements. -/
def runChunks (chunks : List (List Char)) : List (List Char) :=
  (chunks.foldl ingest initState).out


end ChunkMachine

/-! ## Reference-semantics model of the filter

JavaScript objects are heap references: the leaf assignment
`target[part] = sourceValue` (line 129) stores a reference to the source's
own subtree, and `cleanupEmptyStructures` then walks the target through
such references.  To examine what happens to the source object itself,
this section re-renders `_transform` over an explicit store in which
objects and arrays live at addresses; it mirrors the same source lines as
the pure model above and is evaluated at concrete inputs.  All recursion
is fuel-bounded; callers pass ample fuel for the inputs examined. -/

namespace Heap

/-- A JavaScript value under reference semantics: primitives inline,
objects and arrays as store addresses. -/
inductive HVal where
  | hundef : HVal
  | hnull : HVal
  | hbool (b : Bool) : HVal
  | hnum (n : Int) : HVal
  | hstr (s : String) : HVal
  | href (a : Nat) : HVal
  deriving DecidableEq

/-- A heap node: an object's properties, or an array's elements plus any
string-keyed properties. -/
inductive HNode where
  | hobj (props : List (String × HVal)) : HNode
  | harr (elems : List HVal) (props : List (String × HVal)) : HNode
  deriving DecidableEq

abbrev Store := List HNode

def hNodeOf (st : Store) : HVal → Option HNode
  | .href a => st.get? a
  | _ => none

def hSetNode (st : Store) (a : Nat) (n : HNode) : Store := st.set a n

def hAlloc (st : Store) (n : HNode) : Store × Nat := (st ++ [n], st.length)

def hFalsy : HVal → Bool
  | .hundef => true
  | .hnull => true
  | .hbool b => !b
  | .hnum n => n == 0
  | .hstr s => s == ""
  | .href _ => false

def hSetAssoc (props : List (String × HVal)) (k : String) (v : HVal) :
    List (String × HVal) :=
  if props.any (fun p => p.1 == k)
  then props.map (fun p => if p.1 == k then (k, v) else p)
  else props ++ [(k, v)]

def hDelAssoc (props : List (String × HVal)) (k : String) : List (String × HVal) :=
  props.filter (fun p => !(p.1 == k))

def hHasOwn (st : Store) (v : HVal) (k : String) : Bool :=
  match hNodeOf st v with
  | some (.hobj props) => props.any (fun p => p.1 == k)
  | some (.harr _ ps) => k == "length" || ps.any (fun p => p.1 == k)
  | none => false

def hGetProp (st : Store) (v : HVal) (k : String) : HVal :=
  match hNodeOf st v with
  | some (.hobj props) => ((props.find? (fun p => p.1 == k)).map Prod.snd).getD .hundef
  | some (.harr es ps) =>
    if k == "length" then .hnum es.length
    else ((ps.find? (fun p => p.1 == k)).map Prod.snd).getD .hundef
  | none => .hundef

def hResize (es : List HVal) (n : Nat) : List HVal :=
  es.take n ++ List.replicate (n - es.length) .hundef

def hSetProp (st : Store) (v : HVal) (k : String) (x : HVal) : Option Store :=
  match v, hNodeOf st v with
  | .href a, some (.hobj props) => some (hSetNode st a (.hobj (hSetAssoc props k x)))
  | .href a, some (.harr es ps) =>
    if k == "length" then
      match x with
      | .hnum n => if 0 ≤ n then some (hSetNode st a (.harr (hResize es n.toNat) ps)) else none
      | _ => none
    else some (hSetNode st a (.harr es (hSetAssoc ps k x)))
  | _, _ => none

def hPadSet (es : List HVal) (n : Nat) (v : HVal) : List HVal :=
  if n < es.length then es.set n v
  else es ++ List.replicate (n - es.length) .hundef ++ [v]

def hGetIdx (st : Store) (v : HVal) (n : Nat) : HVal :=
  match hNodeOf st v with
  | some (.harr es _) => es.getD n .hundef
  | some (.hobj props) =>
    ((props.find? (fun p => p.1 == toString n)).map Prod.snd).getD .hundef
  | none => .hundef

def hSetIdx (st : Store) (v : HVal) (n : Nat) (x : HVal) : Option Store :=
  match v, hNodeOf st v with
  | .href a, some (.harr es ps) => some (hSetNode st a (.harr (hPadSet es n x) ps))
  | .href a, some (.hobj props) => some (hSetNode st a (.hobj (hSetAssoc props (toString n) x)))
  | _, _ => none

/-- buildStructureFromPath over the store (same branch structure as
`buildAux` above, writing through references instead of returning copies). -/
def hBuild : Nat → Store → HVal → List String → HVal → Option Store
  | _, st, _, [], _ => some st
  | 0, _, _, _ :: _, _ => none
  | fuel + 1, st, source, part :: rest, target =>
    let isLast := rest.isEmpty
    if part == "*" then
      match hNodeOf st source with
      | some (.harr selems _) =>
        match hNodeOf st target with
        | some (.harr _ _) =>
          (List.range selems.length).foldlM
            (fun st2 i =>
              match hNodeOf st2 source with
              | some (.harr ses _) =>
                let sItem := ses.getD i .hundef
                let t0 := hGetIdx st2 target i
                if t0 = HVal.hundef then
                  match hAlloc st2 (.hobj []) with
                  | (st3, a) =>
                    match hSetIdx st3 target i (.href a) with
                    | some st4 => hBuild fuel st4 sItem rest (.href a)
                    | none => none
                else hBuild fuel st2 sItem rest t0
              | _ => none) st
        | _ => none   -- target.push on a non-array: TypeError
      | _ => some st
    else if jsNum part ≠ JSNum.nan then
      match hNodeOf st source with
      | some (.harr selems _) =>
        match jsNum part with
        | .int n =>
          if 0 ≤ n ∧ n < (selems.length : Int) then
            let sourceItem := selems.getD n.toNat .hundef
            if isLast then hSetIdx st target n.toNat sourceItem
            else
              let t0 := hGetIdx st target n.toNat
              if hFalsy t0 then
                match hAlloc st (.hobj []) with
                | (st2, a) =>
                  match hSetIdx st2 target n.toNat (.href a) with
                  | some st3 => hBuild fuel st3 sourceItem rest (.href a)
                  | none => none
              else hBuild fuel st sourceItem rest t0
          else some st
        | .frac num k =>
          -- a finite non-integer index num / 10 ^ k in bounds addresses
          -- the array as the plain property named by its decimal string
          if 0 ≤ num ∧ num < (selems.length : Int) * ((10 : Int) ^ k) then
            let key := fracKey num k
            let sourceItem := hGetProp st source key
            if isLast then hSetProp st target key sourceItem
            else
              let t0 := hGetProp st target key
              if hFalsy t0 then
                match hAlloc st (.hobj []) with
                | (st2, a) =>
                  match hSetProp st2 target key (.href a) with
                  | some st3 => hBuild fuel st3 sourceItem rest (.href a)
                  | none => none
              else hBuild fuel st sourceItem rest t0
          else some st
        | .inf _ => some st
        | .nan => some st   -- unreachable: the branch guard excludes NaN
      | _ => some st
    else
      if hHasOwn st source part then
        let sourceValue := hGetProp st source part
        if isLast then hSetProp st target part sourceValue
        else
          let t0 := hGetProp st target part
          if hFalsy t0 then
            let container : HNode :=
              match rest.head? with
              | some nxt =>
                if nxt == "*" || jsNum nxt ≠ JSNum.nan then .harr [] [] else .hobj []
              | none => .hobj []
            match hAlloc st container with
            | (st2, a) =>
              match hSetProp st2 target part (.href a) with
              | some st3 => hBuild fuel st3 sourceValue rest (.href a)
              | none => none
          else hBuild fuel st sourceValue rest t0
      else some st

/-- `Object.keys(node).length === 0` through a reference. -/
def hIsEmptyComposite (st : Store) (v : HVal) : Bool :=
  match hNodeOf st v with
  | some (.hobj props) => props.isEmpty
  | some (.harr es ps) => es.all (fun e => e == HVal.hundef) && ps.isEmpty
  | none => false

mutual

/-- cleanupEmptyStructures over the store: cleans below the given
reference, deleting entries from the very nodes the references share. -/
def hCleanup : Nat → Store → HVal → Option Store
  | 0, _, _ => none
  | fuel + 1, st, v =>
    match hNodeOf st v with
    | some (.hobj props) => hCleanupKeys fuel st v (props.map Prod.fst)
    | some (.harr es ps) =>
      match hCleanupElems fuel st v es.length 0 with
      | some st2 => hCleanupKeys fuel st2 v (ps.map Prod.fst)
      | none => none
    | none => some st

/-- The key loop: each snapshot key is examined against the current store;
deciding `none` from `hCleanupEntry` means `delete obj[key]`. -/
def hCleanupKeys : Nat → Store → HVal → List String → Option Store
  | 0, _, _, _ => none
  | _ + 1, st, _, [] => some st
  | fuel + 1, st, owner, k :: ks =>
    let value := hGetProp st owner k
    match hCleanupEntry fuel st value with
    | some (st2, keep) =>
      if keep then hCleanupKeys fuel st2 owner ks
      else
        match owner, hNodeOf st2 owner with
        | .href a, some (.hobj props) =>
          hCleanupKeys fuel (hSetNode st2 a (.hobj (hDelAssoc props k))) owner ks
        | .href a, some (.harr es ps) =>
          hCleanupKeys fuel (hSetNode st2 a (.harr es (hDelAssoc ps k))) owner ks
        | _, _ => none
    | none => none

/-- Index properties of an array reached by the recursive call itself:
processed like keys, except that deletion leaves a hole. -/
def hCleanupElems : Nat → Store → HVal → Nat → Nat → Option Store
  | 0, _, _, _, _ => none
  | fuel + 1, st, owner, len, i =>
    if i < len then
      let value := hGetIdx st owner i
      match hCleanupEntry fuel st value with
      | some (st2, keep) =>
        if keep then hCleanupElems fuel st2 owner len (i + 1)
        else
          match hSetIdx st2 owner i .hundef with
          | some st3 => hCleanupElems fuel st3 owner len (i + 1)
          | none => none
      | none => none
    else some st

/-- The loop body for one keyed value: `(store, false)` means the entry is
deleted.  Empty arrays go; non-empty arrays have structured items cleaned
and go when every item is undefined, null or an empty composite; object
values are cleaned recursively and go when left without keys; all other
values (null included, which fails the `value &&` test) stay. -/
def hCleanupEntry : Nat → Store → HVal → Option (Store × Bool)
  | 0, _, _ => none
  | fuel + 1, st, value =>
    match hNodeOf st value with
    | some (.harr es _) =>
      if es.isEmpty then some (st, false)
      else
        match hCleanupItems fuel st es with
        | some st2 =>
          match hNodeOf st2 value with
          | some (.harr es2 _) =>
            if es2.all (fun it =>
                it == HVal.hundef || it == HVal.hnull || hIsEmptyComposite st2 it)
            then some (st2, false) else some (st2, true)
          | _ => none
        | none => none
    | some (.hobj _) =>
      match hCleanup fuel st value with
      | some st2 =>
        match hNodeOf st2 value with
        | some (.hobj props2) => some (st2, !props2.isEmpty)
        | _ => none
      | none => none
    | none => some (st, true)

/-- `value.forEach(item => { if (item && typeof item === 'object')
cleanupEmptyStructures(item) })`. -/
def hCleanupItems : Nat → Store → List HVal → Option Store
  | 0, _, _ => none
  | _ + 1, st, [] => some st
  | fuel + 1, st, it :: rest =>
    match (if (hNodeOf st it).isSome then hCleanup fuel st it else some st) with
    | some st2 => hCleanupItems fuel st2 rest
    | none => none

end

/-- Build the store representation of a JSON document. -/
def hAllocDoc : Nat → JVal → Store → Option (HVal × Store)
  | 0, _, _ => none
  | fuel + 1, v, st =>
    match v with
    | .undef => some (.hundef, st)
    | .jnull => some (.hnull, st)
    | .jbool b => some (.hbool b, st)
    | .jnum n => some (.hnum n, st)
    | .jstr s => some (.hstr s, st)
    | .jobj props =>
      match props.foldlM
          (fun acc p =>
            match hAllocDoc fuel p.2 acc.1 with
            | some (hv, st2) => some (st2, acc.2 ++ [(p.1, hv)])
            | none => none) ((st : Store), ([] : List (String × HVal))) with
      | some (st2, kvs) =>
        match hAlloc st2 (.hobj kvs) with
        | (st3, a) => some (.href a, st3)
      | none => none
    | .jarr es ps =>
      match es.foldlM
          (fun acc e =>
            match hAllocDoc fuel e acc.1 with
            | some (hv, st2) => some (st2, acc.2 ++ [hv])
            | none => none) ((st : Store), ([] : List HVal)) with
      | some (st2, hes) =>
        match ps.foldlM
            (fun acc p =>
              match hAllocDoc fuel p.2 acc.1 with
              | some (hv, st3) => some (st3, acc.2 ++ [(p.1, hv)])
              | none => none) ((st2 : Store), ([] : List (String × HVal))) with
        | some (st4, kvs) =>
          match hAlloc st4 (.harr hes kvs) with
          | (st5, a) => some (.href a, st5)
        | none => none
      | none => none

/-- Read a value back out of the store as a tree. -/
def hReadBack : Nat → Store → HVal → Option JVal
  | 0, _, _ => none
  | fuel + 1, st, v =>
    match v with
    | .hundef => some .undef
    | .hnull => some .jnull
    | .hbool b => some (.jbool b)
    | .hnum n => some (.jnum n)
    | .hstr s => some (.jstr s)
    | .href a =>
      match st.get? a with
      | some (.hobj props) =>
        match props.foldlM
            (fun acc p =>
              match hReadBack fuel st p.2 with
              | some jv => some (acc ++ [(p.1, jv)])
              | none => none) ([] : List (String × JVal)) with
        | some kvs => some (.jobj kvs)
        | none => none
      | some (.harr es ps) =>
        match es.foldlM
            (fun acc e =>
              match hReadBack fuel st e with
              | some jv => some (acc ++ [jv])
              | none => none) ([] : List JVal) with
        | some jes =>
          match ps.foldlM
              (fun acc p =>
                match hReadBack fuel st p.2 with
                | some jv => some (acc ++ [(p.1, jv)])
                | none => none) ([] : List (String × JVal)) with
          | some kvs => some (.jarr jes kvs)
          | none => none
        | none => none
      | none => none

/-- JsonFieldFilter._transform under reference semantics for an object
input: build a fresh target, apply every field path, clean up, and report
both the source object and the pushed target as trees afterwards. -/
def hTransform (fuel : Nat) (fieldsToKeep : List String) (doc : JVal) :
    Option (JVal × JVal) :=
  match hAllocDoc fuel doc [] with
  | some (src, st1) =>
    match hAlloc st1 (.hobj []) with
    | (st2, t) =>
      match fieldsToKeep.foldlM
          (fun s f => hBuild fuel s src (JsonFieldFilter.parsePath f) (.href t)) st2 with
      | some st3 =>
        match hCleanup fuel st3 (.href t) with
        | some st4 =>
          match hReadBack fuel st4 src, hReadBack fuel st4 (.href t) with
          | some srcAfter, some pushed => some (srcAfter, pushed)
          | _, _ => none
        | none => none
      | none => none
  | none => none

end Heap

/-! ## Derived notions used by the statements below -/

namespace JsonFieldFilter

/-- A token list with no wildcard token. -/
def noWildcard (parts : List String) : Bool := parts.all (fun p => !(p == "*"))

/-- A token list whose numeric tokens are all integer-valued or infinite:
the shape `Index(n)` of the spec's path grammar.  (A finite non-integer
numeric token such as `1e-1` instead addresses a plain property named by
its decimal string and can deposit an `undefined`-valued key that pruning
keeps, so the statements below exclude it explicitly.) -/
def intIndexed (parts : List String) : Bool :=
  parts.all (fun p => match jsNum p with | JSNum.frac _ _ => false | _ => true)

/-- Whether the walk of buildStructureFromPath reaches a final assignment:
it mirrors the guards of the wildcard-free, integer-indexed branches (a
wildcard token never assigns directly, and finite non-integer numeric
tokens are excluded by the callers of this predicate via intIndexed). -/
def specResolves : JVal → List String → Bool
  | _, [] => false
  | source, part :: rest =>
    if part == "*" then false
    else if jsNum part ≠ JSNum.nan then
      match source, jsNum part with
      | .jarr selems _, .int n =>
        if 0 ≤ n ∧ n < (selems.length : Int) then
          if rest.isEmpty then true
          else specResolves (selems.getD n.toNat .undef) rest
        else false
      | _, _ => false
    else
      if JVal.isObjLike source && jsHasOwn source part then
        if rest.isEmpty then true
        else specResolves (jsGetProp source part) rest
      else false

end JsonFieldFilter

namespace JVal

mutual

/-- Hereditarily empty structure: a composite whose object entries are all
hereditarily empty, whose array slots are holes or hereditarily empty, and
whose arrays carry no extra properties.  This is the shape a failing
(soft-missed) field path leaves behind before pruning. -/
def heVal : JVal → Bool
  | .jobj props => heProps props
  | .jarr es ps => heElems es && ps.isEmpty
  | _ => false

def heProps : List (String × JVal) → Bool
  | [] => true
  | (_, v) :: rest => heVal v && heProps rest

def heElems : List JVal → Bool
  | [] => true
  | e :: rest => (e == JVal.undef || heVal e) && heElems rest

end

mutual

/-- Size measure for induction over the nested value type. -/
def jsize : JVal → Nat
  | .undef | .jnull | .jbool _ | .jnum _ | .jstr _ => 1
  | .jobj props => 1 + jsizeProps props
  | .jarr elems props => 1 + jsizeElems elems + jsizeProps props

def jsizeProps : List (String × JVal) → Nat
  | [] => 0
  | (_, v) :: rest => 1 + jsize v + jsizeProps rest

def jsizeElems : List JVal → Nat
  | [] => 0
  | v :: rest => 1 + jsize v + jsizeElems rest

end

end JVal

/-- Association-list lookup matching the JavaScript property read used
throughout: the first binding of the key, if any. -/
def lookupProp (props : List (String × JVal)) (k : String) : Option JVal :=
  (props.find? (fun p => p.1 == k)).map Prod.snd

/-- Is the first token of a spec suffix numeric (so that the literal
branch would create an array container for it)? -/
def headNumeric : List String → Bool
  | [] => false
  | p :: _ => !(jsNum p == JSNum.nan)

/-- What an empty field set does to one parsed value: structured values
collapse to the empty object, scalars pass through. -/
def collapseEmpty (v : JVal) : JVal :=
  if JVal.isObjLike v then .jobj [] else v

/-! # Theorems -/

/-! ## Sanity checks: concrete evaluations of the embedded definitions -/

example : jsNum "10" = .int 10 := by decide
example : jsNum "0" = .int 0 := by decide
example : jsNum "" = .int 0 := by decide
example : jsNum " 12 " = .int 12 := by decide
example : jsNum "firstName" = .nan := by decide
example : jsNum "*" = .nan := by decide
example : jsNum "-3" = .int (-3) := by decide
example : jsNum "1e2" = .int 100 := by decide
example : jsNum "1.5e1" = .int 15 := by decide
example : jsNum "Infinity" = .inf true := by decide
example : jsNum "-Infinity" = .inf false := by decide
example : jsNum "1e-1" = .frac 1 1 := by decide
example : jsNum "0.5" = .frac 5 1 := by decide
example : jsNum "2.50" = .frac 25 1 := by decide
example : jsNum "0x10" = .int 16 := by decide
example : jsNum "personid" = .nan := by decide

example : fracKey 1 1 = "0.1" := by decide
example : fracKey 25 1 = "2.5" := by decide
example : fracKey (-1001) 3 = "-1.001" := by decide
example : fracKey 1 6 = "0.000001" := by decide
example : fracKey 15 8 = "1.5e-7" := by decide

-- the non-integer index 0.1 is in bounds for a one-element array, so the
-- filter writes the property "0.1" = source["0.1"] (undefined), which
-- cleanup keeps (the `value &&` test fails on undefined)
example : JsonFieldFilter.transformValue ["1e-1"] (.jarr [.jnum 1] [])
    = some (.jobj [("0.1", JVal.undef)]) := by decide

example : JsonFieldFilter.parsePath "personid" = ["personid"] := by decide
example : JsonFieldFilter.parsePath "personBasic.names" = ["personBasic", "names"] := by decide
example : JsonFieldFilter.parsePath "names[*]" = ["names", "*"] := by decide
example : JsonFieldFilter.parsePath "positions[0]" = ["positions", "0"] := by decide
example : JsonFieldFilter.parsePath "personBasic.names[10].firstName"
    = ["personBasic", "names", "10", "firstName"] := by decide
example : JsonFieldFilter.parsePath "[*]" = ["*"] := by decide
example : JsonFieldFilter.parsePath "a.names[*].firstName" = ["a", "names", "*", "firstName"] := by decide

example : JsonFieldFilter.transformValue ["personid", "personBasic"] bugsDoc
    = some (.jobj [("personid", .jstr "U1"),
        ("personBasic", .jobj [("names",
           .jarr [.jobj [("firstName", .jstr "Bugs"), ("lastName", .jstr "Bunny")]] [])])]) := by
  decide

example : JsonFieldFilter.transformValue [] bugsDoc = some (.jobj []) := by decide

example : JsonFieldFilter.transformValue ["personBasic.names[*].firstName"] bugsDoc
    = some (.jobj [("personBasic", .jobj [("names",
        .jarr [.jobj [("firstName", .jstr "Bugs")]] [])])]) := by decide

example : JsonFieldFilter.transformValue ["personBasic.names[10].firstName", "personid"] bugsDoc
    = some (.jobj [("personid", .jstr "U1")]) := by decide

example : JsonFieldFilter.transformValue ["nonexistent.path.deeply.nested.field", "personid"] bugsDoc
    = some (.jobj [("personid", .jstr "U1")]) := by decide

example : JsonParser.construct "response[*]" = .ok (.pick "response") := by
  simp [JsonParser.construct, JsonParser.extractPathMatch, JsonParser.isLineTerm]

example : (JsonParser.construct "[*]").isOk = false := by decide

example : (JsonParser.construct "response").isOk = false := by decide

example :
    JsonParser.emit (.pick "response")
      (.jobj [("response", .jarr [.jnum 1, .jnum 2] [])]) = some [.jnum 1, .jnum 2] := by decide

example :
    JsonParser.emit (.pick "response")
      (.jobj [("response", .jarr [.jnum 1, .jnull, .jnum 2] [])]) = some [.jnum 1] := by decide

example :
    processResponse ["a"] (.jobj [("response", .jarr [.jobj [("a", .jnum 7), ("b", .jnum 8)]] [])])
      = some (.jobj [("response", .jarr [.jobj [("a", .jnum 7)]] [])]) := by decide

example :
    processResponse [] (.jobj [("response", .jarr [.jobj [("a", .jnum 7)]] [])])
      = some (.jobj [("response", .jarr [.jobj []] [])]) := by decide

example :
    ChunkMachine.runChunks ["[ \x7b\"a\":1\x7d, \x7b\"b\":[2,3]\x7d, 4, \"x,]\" ]".toList]
      = ["\x7b\"a\":1\x7d".toList, "\x7b\"b\":[2,3]\x7d".toList, "4".toList, "\"x,]\"".toList] := by
  decide

example :
    ChunkMachine.runChunks ["[ \x7b\"a\":1\x7d, \x7b\"b\":".toList, "[2,3]\x7d, 4 ]".toList]
      = ["\x7b\"a\":1\x7d".toList, "\x7b\"b\":[2,3]\x7d".toList, "4".toList] := by decide

example :
    Heap.hTransform 12 ["a"] (.jobj [("a", .jobj [("b", .jobj [])])])
      = some (.jobj [("a", .jobj [])], .jobj []) := by decide

example :
    Heap.hTransform 12 ["personid", "personBasic"] bugsDoc = some (bugsDoc, .jobj
      [("personid", .jstr "U1"),
       ("personBasic", .jobj [("names",
          .jarr [.jobj [("firstName", .jstr "Bugs"), ("lastName", .jstr "Bunny")]] [])])]) := by
  decide

section EmissionLemmas

open JsonParser

theorem emitValues_of_not_mem (es : List JVal)
    (hnn : JVal.jnull ∉ es) (hnu : JVal.undef ∉ es) :
    emitValues es = es := by
  induction es with
  | nil => rfl
  | cons e rest ih =>
    simp only [List.mem_cons, not_or] at hnn hnu
    have h1 : e ≠ JVal.undef := fun h => hnu.1 h.symm
    have h2 : e ≠ JVal.jnull := fun h => hnn.1 h.symm
    simp [emitValues, h1, h2, ih hnn.2 hnu.2]

theorem emitValues_stops_at_null (pre post : List JVal)
    (hnn : JVal.jnull ∉ pre) (hnu : JVal.undef ∉ pre) :
    emitValues (pre ++ JVal.jnull :: post) = pre := by
  induction pre with
  | nil => simp [emitValues]
  | cons e rest ih =>
    simp only [List.mem_cons, not_or] at hnn hnu
    have h1 : e ≠ JVal.undef := fun h => hnu.1 h.symm
    have h2 : e ≠ JVal.jnull := fun h => hnn.1 h.symm
    simp [emitValues, h1, h2, ih hnn.2 hnu.2]

end EmissionLemmas

/-- C1: the spec claims construction fails if and only if the extraction
path does not end in the array marker, and in particular that the
degenerate path consisting of the marker alone is accepted with the whole
document as the target array.  The code rejects that path: the regular
expression of line 36 requires at least one character before the marker,
so the `jsonPath === ''` branch of lines 43-45 (and the class's own doc
comment) is dead, and construction with the three-character marker path
throws the configuration error even though the path ends in the marker.
A path with a nonempty prefix is accepted and a path without the marker
is rejected, as the claim says. -/
theorem c1_degenerate_extract_path_rejected :
    JsonParser.extractPathMatch "[*]" = none ∧
    (JsonParser.construct "[*]")
      = .error ("extractPath must end with [*] to indicate array extraction: " ++ "[*]") ∧
    JsonParser.construct "response[*]" = .ok (.pick "response") ∧
    (JsonParser.construct "response").isOk = false := by
  refine ⟨by decide, rfl, rfl, by decide⟩

/-- C2 (amended): when the configured extraction path resolves to an array
none of whose elements is the JSON null (and, as for every parsed JSON
document, no element is the undefined value), the parser emits exactly
the array's elements, one per element, in document order. -/
theorem c2_emits_one_value_per_element (path : String) (mode : JsonParser.PipelineMode)
    (doc : JVal) (es : List JVal) (props : List (String × JVal))
    (_hc : JsonParser.construct path = Except.ok mode)
    (hpick : JsonParser.pickTarget mode doc = some (.jarr es props))
    (hnn : JVal.jnull ∉ es) (hnu : JVal.undef ∉ es) :
    JsonParser.emit mode doc = some es := by
  simp [JsonParser.emit, hpick, emitValues_of_not_mem es hnn hnu]

theorem c2_emits_one_value_per_element_witness :
    JsonParser.emit (.pick "response") (.jobj [("response", .jarr [.jnum 1, .jnum 2] [])])
      = some [.jnum 1, .jnum 2] :=
  c2_emits_one_value_per_element "response[*]" (.pick "response")
    (.jobj [("response", .jarr [.jnum 1, .jnum 2] [])]) [.jnum 1, .jnum 2] []
    rfl rfl (by decide) (by decide)

/-- C2 (counterexample): a document whose target array has three elements,
the second of which is null, makes the parser emit one value, not three:
the data handler pushes the parsed null and pushing null is the Node
end-of-stream signal. -/
theorem c2_counterexample_null_truncates :
    JsonParser.construct "response[*]" = .ok (.pick "response") ∧
    JsonParser.pickTarget (.pick "response")
        (.jobj [("response", .jarr [.jnum 1, .jnull, .jnum 2] [])])
      = some (.jarr [.jnum 1, .jnull, .jnum 2] []) ∧
    ([JVal.jnum 1, JVal.jnull, JVal.jnum 2] : List JVal).length = 3 ∧
    JsonParser.emit (.pick "response")
        (.jobj [("response", .jarr [.jnum 1, .jnull, .jnum 2] [])])
      = some [.jnum 1] ∧
    ¬ ([JVal.jnum 1] : List JVal).length = 3 :=
  ⟨rfl, by decide, by decide, by decide, by decide⟩

/-- C9: a JSON null element of the target array ends the parser's emitted
sequence: the values before the first null are emitted in order, the null
itself is never delivered, and nothing after it is ever emitted. -/
theorem c9_null_element_ends_emission (mode : JsonParser.PipelineMode)
    (doc : JVal) (es pre post : List JVal) (props : List (String × JVal))
    (hpick : JsonParser.pickTarget mode doc = some (.jarr es props))
    (hsplit : es = pre ++ JVal.jnull :: post)
    (hnn : JVal.jnull ∉ pre) (hnu : JVal.undef ∉ pre) :
    JsonParser.emit mode doc = some pre ∧ pre.length < es.length := by
  constructor
  · simp [JsonParser.emit, hpick, hsplit, emitValues_stops_at_null pre post hnn hnu]
  · simp [hsplit]

theorem c9_null_element_ends_emission_witness :
    JsonParser.emit (.pick "response")
        (.jobj [("response", .jarr [.jnum 7, .jnull, .jnum 8] [])])
      = some [.jnum 7] ∧
    ([JVal.jnum 7] : List JVal).length
      < ([JVal.jnum 7, JVal.jnull, JVal.jnum 8] : List JVal).length :=
  c9_null_element_ends_emission (.pick "response")
    (.jobj [("response", .jarr [.jnum 7, .jnull, .jnum 8] [])])
    [.jnum 7, .jnull, .jnum 8] [.jnum 7] [.jnum 8] []
    rfl rfl (by decide) (by decide)

/-- C3: the spec claims the projector never mutates the source value.  It
does: the leaf assignment of line 129 stores a reference to the source's
own subtree into the target, and cleanupEmptyStructures then walks the
target through that shared reference and deletes empty members from the
source itself.  For the source object with a = an object whose b is the
empty object and the single field path a, the filter both returns the
empty object and leaves the source changed to one whose a has lost its
member b. -/
theorem c3_cleanup_mutates_source_through_shared_reference :
    Heap.hTransform 12 ["a"] (.jobj [("a", .jobj [("b", .jobj [])])])
      = some (.jobj [("a", .jobj [])], .jobj []) ∧
    (JVal.jobj [("a", .jobj [])]) ≠ (JVal.jobj [("a", .jobj [("b", .jobj [])])]) := by
  refine ⟨by decide, by decide⟩

/-- C4: splitting the byte sequence of a document into two ingestion calls
at any position, including inside one array element, produces exactly the
state (and so the emitted source values) of feeding it unsplit: ingestion
is a character-at-a-time fold of the step function, which carries the
string, escape, nesting and element-buffer state across the boundary.
The second conjunct pins down the machine's meaning on a concrete
document. -/
theorem c4_chunk_split_invariance :
    (∀ (cs : List Char) (k : Nat),
        ChunkMachine.runChunks [cs.take k, cs.drop k] = ChunkMachine.runChunks [cs]) ∧
    ChunkMachine.runChunks ["[ \x7b\"a\":1\x7d, \x7b\"b\":[2,3]\x7d, 4 ]".toList]
      = ["\x7b\"a\":1\x7d".toList, "\x7b\"b\":[2,3]\x7d".toList, "4".toList] := by
  constructor
  · intro cs k
    simp only [ChunkMachine.runChunks, ChunkMachine.ingest, List.foldl_cons, List.foldl_nil]
    rw [← List.foldl_append, List.take_append_drop]
  · decide

section EmptyFieldsLemmas

open JsonFieldFilter

theorem transformValue_nil_fields (v : JVal) :
    transformValue [] v = some (collapseEmpty v) := by
  cases v <;>
    simp [transformValue, collapseEmpty, JVal.isObjLike, applyFields,
      cleanupEmptyStructures, cleanupProps]

theorem mapOption_transformValue_nil (es : List JVal) :
    mapOption (transformValue []) es = some (es.map collapseEmpty) := by
  induction es with
  | nil => rfl
  | cons e rest ih => simp [mapOption, transformValue_nil_fields, ih]

end EmptyFieldsLemmas

/-- C8 (amended): with an empty set of field path specs the orchestrator
still pipes every emitted source value through the projector, which
reduces each object or array value to the empty object and passes scalars
through; the response it resolves with holds those collapsed values, not
the raw parsed ones. -/
theorem c8_empty_fields_collapse_values (doc : JVal) (es : List JVal)
    (props : List (String × JVal))
    (hpick : JsonParser.pickTarget (.pick "response") doc = some (.jarr es props))
    (hnn : JVal.jnull ∉ es) (hnu : JVal.undef ∉ es) :
    processResponse [] doc
      = some (.jobj [("response", .jarr (es.map collapseEmpty) [])]) := by
  have hc : JsonParser.construct "response[*]" = Except.ok (.pick "response") := rfl
  simp [processResponse, hc, JsonParser.emit, hpick,
    emitValues_of_not_mem es hnn hnu, mapOption_transformValue_nil]

theorem c8_empty_fields_collapse_values_witness :
    processResponse [] (.jobj [("response", .jarr [.jobj [("a", .jnum 1)], .jstr "s"] [])])
      = some (.jobj [("response",
          .jarr ([JVal.jobj [("a", .jnum 1)], JVal.jstr "s"].map collapseEmpty) [])]) :=
  c8_empty_fields_collapse_values
    (.jobj [("response", .jarr [.jobj [("a", .jnum 1)], .jstr "s"] [])])
    [.jobj [("a", .jnum 1)], .jstr "s"] [] rfl (by decide) (by decide)

/-- C8 (counterexample): with no field path specs configured, an emitted
object source value is delivered as the empty object, not unmodified: the
orchestrator unconditionally pipes through the field filter, whose
transform always builds a fresh filtered object. -/
theorem c8_counterexample_raw_values_not_returned :
    processResponse [] (.jobj [("response", .jarr [.jobj [("a", .jnum 1)]] [])])
      = some (.jobj [("response", .jarr [.jobj []] [])]) ∧
    JVal.jobj [] ≠ JVal.jobj [("a", .jnum 1)] :=
  ⟨by decide, by decide⟩

section NumericSegmentLemmas

open JsonFieldFilter

theorem star_not_numeric : jsNum "*" = JSNum.nan := by decide

theorem beq_star_false_of_numeric {part : String} (h : jsNum part ≠ JSNum.nan) :
    (part == "*") = false := by
  rcases hbe : part == "*" with _ | _
  · rfl
  · exact absurd (by rw [eq_of_beq hbe]; exact star_not_numeric) h

theorem build_numeric_head_on_object (props : List (String × JVal)) (part : String)
    (rest : List String) (target : JVal) (h : jsNum part ≠ JSNum.nan) :
    buildStructureFromPath (.jobj props) (part :: rest) target = some target := by
  simp [buildStructureFromPath, buildAux, beq_star_false_of_numeric h, h]

theorem build_head_no_key_selected (props : List (String × JVal)) (part : String)
    (rest : List String) (target : JVal)
    (hk : ∀ p ∈ props, jsNum p.1 ≠ JSNum.nan) :
    buildStructureFromPath (.jobj props) (part :: rest) target = some target := by
  by_cases hnum : jsNum part = JSNum.nan
  · by_cases hstar : (part == "*") = true
    · simp [buildStructureFromPath, buildAux, hstar]
    · have hown : jsHasOwn (.jobj props) part = false := by
        simp only [jsHasOwn, List.any_eq_false]
        intro p hp
        intro hbe
        exact absurd (by rw [eq_of_beq hbe]; exact hnum) (hk p hp)
      simp [buildStructureFromPath, buildAux, Bool.not_eq_true _ ▸ hstar, hnum, hown]
  · exact build_numeric_head_on_object props part rest target hnum

theorem extractField_no_key_selected (props : List (String × JVal)) (f : String)
    (target : JVal) (hk : ∀ p ∈ props, jsNum p.1 ≠ JSNum.nan) :
    extractField (.jobj props) f target = some target := by
  unfold extractField
  rcases hp : parsePath f with _ | ⟨part, rest⟩
  · rfl
  · exact build_head_no_key_selected props part rest target hk

end NumericSegmentLemmas

/-- C10: a path segment whose text Number() accepts is handled by the
array-index branch (or, for the star, the wildcard branch), never by the
property branch; consequently an object property whose name is such a
numeric string can never be selected: a numeric segment applied to an
object source leaves the target untouched, and projecting an object all
of whose keys are numeric strings yields the empty object whatever the
field paths are. -/
theorem c10_numeric_segments_are_indices_not_names :
    (∀ (props : List (String × JVal)) (part : String) (rest : List String) (target : JVal),
        jsNum part ≠ JSNum.nan →
        JsonFieldFilter.buildStructureFromPath (.jobj props) (part :: rest) target
          = some target) ∧
    (∀ (fields : List String) (props : List (String × JVal)),
        (∀ p ∈ props, jsNum p.1 ≠ JSNum.nan) →
        JsonFieldFilter.transformValue fields (.jobj props) = some (.jobj [])) := by
  constructor
  · exact build_numeric_head_on_object
  · intro fields props hk
    have hfold : ∀ acc : JVal,
        JsonFieldFilter.applyFields (.jobj props) fields acc = some acc := by
      induction fields with
      | nil => intro acc; rfl
      | cons f fs ih =>
        intro acc
        simp [JsonFieldFilter.applyFields,
          extractField_no_key_selected props f acc hk, ih]
    simp [JsonFieldFilter.transformValue, JVal.isObjLike, hfold,
      JsonFieldFilter.cleanupEmptyStructures, JsonFieldFilter.cleanupProps]

theorem c10_numeric_segments_are_indices_not_names_witness :
    JsonFieldFilter.buildStructureFromPath (.jobj [("5", .jnum 1)]) ["5"] (.jobj [])
      = some (.jobj []) ∧
    JsonFieldFilter.transformValue ["0", "a.0"] (.jobj [("0", .jnum 7), ("10", .jstr "x")])
      = some (.jobj []) :=
  ⟨c10_numeric_segments_are_indices_not_names.1 [("5", .jnum 1)] "5" [] (.jobj [])
      (by decide),
   c10_numeric_segments_are_indices_not_names.2 ["0", "a.0"]
      [("0", .jnum 7), ("10", .jstr "x")] (by decide)⟩

section WildcardLemmas

open JsonFieldFilter

theorem mapOption_length {a b : Type} (f : a → Option b) :
    ∀ (l : List a) (r : List b), mapOption f l = some r → r.length = l.length := by
  intro l
  induction l with
  | nil =>
    intro r h
    simp [mapOption] at h
    simp [← h]
  | cons x xs ih =>
    intro r h
    simp only [mapOption] at h
    rcases hf : f x with _ | y
    · rw [hf] at h; exact absurd h (by simp)
    · rw [hf] at h
      rcases hm : mapOption f xs with _ | ys
      · rw [hm] at h; exact absurd h (by simp)
      · rw [hm] at h
        simp at h
        simp [← h, ih ys hm]

theorem mergeRun_nil_target (f : JVal → JVal → Option JVal) (selems : List JVal) :
    mergeRun f selems [] = mapOption (fun e => f e (.jobj [])) selems := by
  induction selems with
  | nil => rfl
  | cons e ss ih =>
    simp only [mergeRun, List.headD_nil, List.tail_nil, mergeSlot, if_pos rfl, ih,
      if_true, mapOption]
    rcases hf : f e (JVal.jobj []) with _ | t2
    · simp [hf]
    · simp only [hf]
      rcases hm : mapOption (fun e => f e (JVal.jobj [])) ss with _ | ts <;> simp [hm]

end WildcardLemmas

/-- C6: applying the wildcard token of a spec to a source array of length
M (with the fresh, still-empty target array its preceding literal token
creates) produces exactly the array of the M element-wise projections:
element i is what projecting source element i through the remaining tokens
into a fresh target yields, the whole application fails exactly when some
element projection fails, and on success the target array has length M. -/
theorem c6_wildcard_projects_every_element (selems : List JVal)
    (sprops : List (String × JVal)) (rest : List String) :
    (JsonFieldFilter.buildStructureFromPath (.jarr selems sprops) ("*" :: rest) (.jarr [] [])
      = (JsonFieldFilter.mapOption
            (fun e => JsonFieldFilter.buildStructureFromPath e rest (.jobj [])) selems).map
          (fun ts => JVal.jarr ts [])) ∧
    (∀ ts, JsonFieldFilter.mapOption
          (fun e => JsonFieldFilter.buildStructureFromPath e rest (.jobj [])) selems
        = some ts → ts.length = selems.length) := by
  constructor
  · simp only [JsonFieldFilter.buildStructureFromPath, List.length_cons]
    simp only [JsonFieldFilter.buildAux]
    simp only [beq_self_eq_true, if_pos]
    rw [mergeRun_nil_target]
    rcases hm : JsonFieldFilter.mapOption
        (fun e => JsonFieldFilter.buildAux rest.length e rest (.jobj [])) selems with _ | ts
    · simp [hm]
    · simp [hm]
  · intro ts h
    exact mapOption_length _ selems ts h

theorem c6_wildcard_projects_every_element_witness :
    (JsonFieldFilter.buildStructureFromPath
        (.jarr [.jobj [("x", .jnum 1), ("y", .jnum 2)], .jobj [("x", .jnum 3)]] [])
        ("*" :: ["x"]) (.jarr [] [])
      = ((JsonFieldFilter.mapOption
            (fun e => JsonFieldFilter.buildStructureFromPath e ["x"] (.jobj []))
            [JVal.jobj [("x", .jnum 1), ("y", .jnum 2)], JVal.jobj [("x", .jnum 3)]]).map
          (fun ts => JVal.jarr ts []))) ∧
    ([JVal.jobj [("x", .jnum 1)], JVal.jobj [("x", .jnum 3)]] : List JVal).length
      = ([JVal.jobj [("x", .jnum 1), ("y", .jnum 2)], JVal.jobj [("x", .jnum 3)]] : List JVal).length :=
  ⟨(c6_wildcard_projects_every_element
      [.jobj [("x", .jnum 1), ("y", .jnum 2)], .jobj [("x", .jnum 3)]] [] ["x"]).1,
   (c6_wildcard_projects_every_element
      [.jobj [("x", .jnum 1), ("y", .jnum 2)], .jobj [("x", .jnum 3)]] [] ["x"]).2
      [JVal.jobj [("x", .jnum 1)], JVal.jobj [("x", .jnum 3)]] (by decide)⟩

section LiteralSpecLemmas

open JsonFieldFilter

theorem setAssoc_not_mem (props : List (String × JVal)) (k : String) (v : JVal)
    (h : props.any (fun p => p.1 == k) = false) :
    setAssoc props k v = props ++ [(k, v)] := by
  simp [setAssoc, h]

theorem build_single_literal (props : List (String × JVal)) (n : String)
    (acc : List (String × JVal)) (hstar : (n == "*") = false)
    (hnum : jsNum n = JSNum.nan) :
    buildStructureFromPath (.jobj props) [n] (.jobj acc)
      = some (.jobj (if props.any (fun p => p.1 == n)
          then setAssoc acc n (jsGetProp (.jobj props) n)
          else acc)) := by
  by_cases hp : props.any (fun p => p.1 == n) = true
  · simp [buildStructureFromPath, buildAux, hstar, hnum, jsHasOwn, hp,
      jsSetProp, JVal.isObjLike]
  · simp only [Bool.not_eq_true] at hp
    simp [buildStructureFromPath, buildAux, hstar, hnum, jsHasOwn, hp,
      JVal.isObjLike]

theorem applyFields_literals (props : List (String × JVal)) :
    ∀ (names : List String) (acc : List (String × JVal)),
      (∀ n ∈ names, parsePath n = [n] ∧ (n == "*") = false ∧ jsNum n = JSNum.nan) →
      names.Nodup →
      (∀ n2 ∈ names, acc.any (fun p => p.1 == n2) = false) →
      applyFields (.jobj props) names (.jobj acc)
        = some (.jobj (acc ++ (names.filter (fun n => props.any (fun p => p.1 == n))).map
            (fun n => (n, jsGetProp (.jobj props) n)))) := by
  intro names
  induction names with
  | nil =>
    intro acc _ _ _
    simp [applyFields]
  | cons n ns ih =>
    intro acc hn hd hdisj
    obtain ⟨hp, hs, hnum⟩ := hn n (List.mem_cons_self n ns)
    have hd2 : ns.Nodup := (List.nodup_cons.mp hd).2
    have hnmem : n ∉ ns := (List.nodup_cons.mp hd).1
    have hn2 : ∀ m ∈ ns, parsePath m = [m] ∧ (m == "*") = false ∧ jsNum m = JSNum.nan :=
      fun m hm => hn m (List.mem_cons_of_mem n hm)
    simp only [applyFields, extractField, hp]
    rw [build_single_literal props n acc hs hnum]
    by_cases hpres : props.any (fun p => p.1 == n) = true
    · rw [if_pos hpres, setAssoc_not_mem acc n _ (hdisj n (List.mem_cons_self n ns))]
      show applyFields (.jobj props) ns (.jobj (acc ++ [(n, jsGetProp (.jobj props) n)])) = _
      rw [ih (acc ++ [(n, jsGetProp (.jobj props) n)]) hn2 hd2 ?_]
      · simp [List.filter_cons, hpres]
      · intro n2 hn2mem
        have h1 : acc.any (fun p => p.1 == n2) = false :=
          hdisj n2 (List.mem_cons_of_mem n hn2mem)
        have h2 : (n == n2) = false := by
          rcases hbe : n == n2 with _ | _
          · rfl
          · exact absurd (eq_of_beq hbe ▸ hn2mem) hnmem
        simp [List.any_append, h1, h2]
    · simp only [Bool.not_eq_true] at hpres
      rw [if_neg (by simp [hpres])]
      show applyFields (.jobj props) ns (.jobj acc) = _
      rw [ih acc hn2 hd2 (fun n2 hm => hdisj n2 (List.mem_cons_of_mem n hm))]
      simp [List.filter_cons, hpres]

theorem cleanupEntry_scalar (v : JVal) (h : JVal.isObjLike v = false) :
    cleanupEntry v = some v := by
  cases v <;> simp_all [cleanupEntry, JVal.isObjLike]

theorem cleanupProps_of_scalars (l : List (String × JVal))
    (h : ∀ p ∈ l, JVal.isObjLike p.2 = false) : cleanupProps l = l := by
  induction l with
  | nil => rfl
  | cons p rest ih =>
    have hv := h p (List.mem_cons_self p rest)
    rcases p with ⟨k, v⟩
    simp [cleanupProps, cleanupEntry_scalar v hv,
      ih (fun q hq => h q (List.mem_cons_of_mem _ hq))]

theorem jsGetProp_flat_scalar (props : List (String × JVal)) (n : String)
    (hflat : ∀ p ∈ props, JVal.isObjLike p.2 = false) :
    JVal.isObjLike (jsGetProp (.jobj props) n) = false := by
  simp only [jsGetProp]
  rcases hf : props.find? (fun p => p.1 == n) with _ | q
  · simp [hf, JVal.isObjLike]
  · simp only [hf, Option.map_some, Option.getD_some]
    exact hflat q (List.mem_of_find?_eq_some hf)

end LiteralSpecLemmas

/-- C5: projecting a flat object (every property value a scalar) through
specs that are plain literal names keeps exactly the named top-level keys
that exist on the source, in spec order, each mapped to the source's value
for that key, and nothing else. -/
theorem c5_literal_specs_project_flat_objects (props : List (String × JVal))
    (names : List String)
    (hflat : ∀ p ∈ props, JVal.isObjLike p.2 = false)
    (hnames : ∀ n ∈ names, JsonFieldFilter.parsePath n = [n] ∧ (n == "*") = false
        ∧ jsNum n = JSNum.nan)
    (hnodup : names.Nodup) :
    JsonFieldFilter.transformValue names (.jobj props)
      = some (.jobj ((names.filter (fun n => props.any (fun p => p.1 == n))).map
          (fun n => (n, JsonFieldFilter.jsGetProp (.jobj props) n)))) := by
  have hfold := applyFields_literals props names [] hnames hnodup
    (fun n2 _ => rfl)
  simp only [List.nil_append] at hfold
  have hsc : ∀ p ∈ (names.filter (fun n => props.any (fun q => q.1 == n))).map
      (fun n => (n, JsonFieldFilter.jsGetProp (.jobj props) n)),
      JVal.isObjLike p.2 = false := by
    intro p hp
    obtain ⟨n, _, rfl⟩ := List.mem_map.mp hp
    exact jsGetProp_flat_scalar props n hflat
  simp [JsonFieldFilter.transformValue, JVal.isObjLike, hfold,
    JsonFieldFilter.cleanupEmptyStructures,
    cleanupProps_of_scalars _ hsc]

theorem c5_literal_specs_project_flat_objects_witness :
    JsonFieldFilter.transformValue ["personid", "missing"]
        (.jobj [("personid", .jstr "U1"), ("extra", .jstr "x")])
      = some (.jobj (((["personid", "missing"].filter
          (fun n => [("personid", JVal.jstr "U1"), ("extra", JVal.jstr "x")].any
            (fun p => p.1 == n)))).map
          (fun n => (n, JsonFieldFilter.jsGetProp
              (.jobj [("personid", .jstr "U1"), ("extra", .jstr "x")]) n)))) :=
  c5_literal_specs_project_flat_objects
    [("personid", .jstr "U1"), ("extra", .jstr "x")] ["personid", "missing"]
    (by decide) (by decide) (by decide)

section PruningLemmas

open JsonFieldFilter JVal

theorem heElems_replicate_append (n : Nat) (t : JVal) (ht : heVal t = true) :
    heElems (List.replicate n JVal.undef ++ [t]) = true := by
  induction n with
  | zero => simp [heElems, ht]
  | succ m ih => simpa [List.replicate_succ, heElems] using ih

/-- Cleanup collapses hereditarily empty structure: a hereditarily empty
value is deleted as an entry, hereditarily empty properties all vanish,
and hereditarily empty array elements become holes or pass the
all-empty test.  Proved by strong induction on the size measure. -/
theorem heClean (N : Nat) :
    (∀ v, jsize v ≤ N → heVal v = true → cleanupEntry v = none) ∧
    (∀ l, jsizeProps l ≤ N → heProps l = true → cleanupProps l = []) ∧
    (∀ es, jsizeElems es ≤ N → heElems es = true →
        cleanupKeyElems es = List.replicate es.length JVal.undef) ∧
    (∀ es, jsizeElems es ≤ N → heElems es = true →
        (cleanupItems es).all
          (fun it => it == JVal.undef || it == JVal.jnull || isEmptyComposite it) = true) := by
  induction N with
  | zero =>
    refine ⟨?_, ?_, ?_, ?_⟩
    · intro v hv _
      exfalso
      cases v <;> simp only [jsize] at hv <;> omega
    · intro l hl _
      cases l with
      | nil => rfl
      | cons q rest =>
        exfalso
        rcases q with ⟨k, v⟩
        simp only [jsizeProps] at hl
        omega
    · intro es he _
      cases es with
      | nil => rfl
      | cons e rest =>
        exfalso
        simp only [jsizeElems] at he
        omega
    · intro es he _
      cases es with
      | nil => rfl
      | cons e rest =>
        exfalso
        simp only [jsizeElems] at he
        omega
  | succ M ih =>
    obtain ⟨ihV, ihP, ihK, ihI⟩ := ih
    have hEmptyOfHe : ∀ v, jsize v ≤ M + 1 → heVal v = true →
        isEmptyComposite (cleanupEmptyStructures v) = true := by
      intro v hv hhe
      cases v with
      | jobj props =>
        have hps : jsizeProps props ≤ M := by simp [jsize] at hv; omega
        have : cleanupProps props = [] := ihP props hps (by simpa [heVal] using hhe)
        simp [cleanupEmptyStructures, this, isEmptyComposite]
      | jarr es ps =>
        have hhe2 := hhe
        simp only [heVal, Bool.and_eq_true] at hhe2
        have hes : jsizeElems es ≤ M := by simp [jsize] at hv; omega
        have hps : ps = [] := by
          cases ps with
          | nil => rfl
          | cons q qs => simp at hhe2
        subst hps
        have hk := ihK es hes hhe2.1
        simp [cleanupEmptyStructures, cleanupProps, hk, isEmptyComposite]
      | undef => simp [heVal] at hhe
      | jnull => simp [heVal] at hhe
      | jbool b => simp [heVal] at hhe
      | jnum n => simp [heVal] at hhe
      | jstr t => simp [heVal] at hhe
    refine ⟨?_, ?_, ?_, ?_⟩
    · -- cleanupEntry on hereditarily empty values deletes
      intro v hv hhe
      cases v with
      | jobj props =>
        have hps : jsizeProps props ≤ M := by simp [jsize] at hv; omega
        have : cleanupProps props = [] := ihP props hps (by simpa [heVal] using hhe)
        simp [cleanupEntry, this]
      | jarr es ps =>
        have hhe2 := hhe
        simp only [heVal, Bool.and_eq_true] at hhe2
        have hes : jsizeElems es ≤ M := by simp [jsize] at hv; omega
        cases es with
        | nil => simp [cleanupEntry]
        | cons e rest =>
          have hall := ihI (e :: rest) hes hhe2.1
          simp [cleanupEntry, hall]
      | undef => simp [heVal] at hhe
      | jnull => simp [heVal] at hhe
      | jbool b => simp [heVal] at hhe
      | jnum n => simp [heVal] at hhe
      | jstr t => simp [heVal] at hhe
    · -- props all deleted
      intro l hl hp
      induction l with
      | nil => rfl
      | cons q rest ihl =>
        rcases q with ⟨k, v⟩
        simp only [heProps, Bool.and_eq_true] at hp
        have hv : jsize v ≤ M := by simp [jsizeProps] at hl; omega
        have hrest : jsizeProps rest ≤ M + 1 := by simp [jsizeProps] at hl; omega
        have hdel : cleanupEntry v = none := by
          refine ihV v ?_ hp.1
          omega
        simp [cleanupProps, hdel, ihl hrest hp.2]
    · -- keyed array elements become holes
      intro es he hhe
      induction es with
      | nil => rfl
      | cons e rest ihe =>
        simp only [heElems, Bool.and_eq_true, Bool.or_eq_true] at hhe
        have he2 : jsizeElems rest ≤ M + 1 := by simp [jsizeElems] at he; omega
        have hv : jsize e ≤ M := by simp [jsizeElems] at he; omega
        have hhead : (cleanupEntry e).getD JVal.undef = JVal.undef := by
          rcases hhe.1 with h | h
          · rw [eq_of_beq h]; rfl
          · rw [ihV e (by omega) h]; rfl
        simp [cleanupKeyElems, hhead, ihe he2 hhe.2, List.replicate_succ]
    · -- cleaned items all pass the emptiness test
      intro es he hhe
      induction es with
      | nil => rfl
      | cons e rest ihe =>
        simp only [heElems, Bool.and_eq_true, Bool.or_eq_true] at hhe
        have he2 : jsizeElems rest ≤ M + 1 := by simp [jsizeElems] at he; omega
        have hv : jsize e ≤ M + 1 := by simp [jsizeElems] at he; omega
        have hhead : ((if isObjLike e then cleanupEmptyStructures e else e) == JVal.undef
            || (if isObjLike e then cleanupEmptyStructures e else e) == JVal.jnull
            || isEmptyComposite (if isObjLike e then cleanupEmptyStructures e else e)) = true := by
          rcases hhe.1 with h | h
          · rw [eq_of_beq h]; rfl
          · have hobj : isObjLike e = true := by cases e <;> simp_all [heVal, isObjLike]
            simp [hobj, hEmptyOfHe e hv h]
        simp only [cleanupItems, List.all_cons, ihe he2 hhe.2, Bool.and_true]
        exact hhead

end PruningLemmas

section BranchNoOpLemmas

open JsonFieldFilter JVal

theorem build_star_nonarray_source (source : JVal) (rest : List String) (target : JVal)
    (hsrc : JVal.isArr source = false) :
    buildStructureFromPath source ("*" :: rest) target = some target := by
  cases source <;> simp_all [buildStructureFromPath, buildAux, JVal.isArr]

theorem build_numeric_nonarray (source : JVal) (part : String) (rest : List String)
    (target : JVal) (hstar : (part == "*") = false) (hnum : jsNum part ≠ JSNum.nan)
    (hsrc : JVal.isArr source = false) :
    buildStructureFromPath source (part :: rest) target = some target := by
  cases source <;> simp_all [buildStructureFromPath, buildAux, JVal.isArr, hstar, hnum]

theorem build_numeric_infinite (source : JVal) (part : String) (rest : List String)
    (target : JVal) (hstar : (part == "*") = false) (pos : Bool)
    (hjs : jsNum part = JSNum.inf pos) :
    buildStructureFromPath source (part :: rest) target = some target := by
  have hnum : jsNum part ≠ JSNum.nan := by simp [hjs]
  cases source <;> simp_all [buildStructureFromPath, buildAux, hstar, hnum, hjs]

theorem build_index_out_of_bounds (selems : List JVal) (sprops : List (String × JVal))
    (part : String) (rest : List String) (target : JVal) (n : Int)
    (hjs : jsNum part = JSNum.int n) (hb : ¬ (0 ≤ n ∧ n < (selems.length : Int))) :
    buildStructureFromPath (.jarr selems sprops) (part :: rest) target = some target := by
  have hnum : jsNum part ≠ JSNum.nan := by simp [hjs]
  have hstar : (part == "*") = false := beq_star_false_of_numeric hnum
  simp [buildStructureFromPath, buildAux, hstar, hnum, hjs, hb]

theorem build_literal_absent (source : JVal) (part : String) (rest : List String)
    (target : JVal) (hstar : (part == "*") = false) (hnum : jsNum part = JSNum.nan)
    (hguard : (JVal.isObjLike source && jsHasOwn source part) = false) :
    buildStructureFromPath source (part :: rest) target = some target := by
  simp [buildStructureFromPath, buildAux, hstar, hnum, hguard]

end BranchNoOpLemmas

section MissLemmas

open JsonFieldFilter JVal

theorem buildAux_as_wrapper (source : JVal) (rest : List String) (target : JVal) :
    buildAux rest.length source rest target = buildStructureFromPath source rest target := rfl

/-- One step of the literal branch when the property exists and more
tokens follow, into a fresh object target: create the container dictated
by the next token, recurse, and store the result under the property.
Stated over buildAux with an abstract fuel so that the inner call stays
folded. -/
theorem buildAux_literal_hit (f : Nat) (source : JVal) (part nxt : String)
    (rrest : List String)
    (hstar : (part == "*") = false) (hnum : jsNum part = JSNum.nan)
    (hguard : (JVal.isObjLike source && jsHasOwn source part) = true) :
    buildAux (f + 1) source (part :: nxt :: rrest) (.jobj []) =
      (match buildAux f (jsGetProp source part) (nxt :: rrest)
          (nextContainer (nxt :: rrest)) with
       | some t2 => some (.jobj [(part, t2)])
       | none => none) := by
  have h0 : jsGetProp (JVal.jobj []) part = JVal.undef := rfl
  have hset : ∀ t2 : JVal, jsSetProp (JVal.jobj []) part t2 = some (.jobj [(part, t2)]) :=
    fun t2 => rfl
  cases source with
  | jobj props =>
    rcases hbs : buildAux f (jsGetProp (.jobj props) part) (nxt :: rrest)
        (nextContainer (nxt :: rrest)) with _ | t2 <;>
      simp [buildAux, hstar, hnum, hguard, h0, jsFalsy, hset, hbs]
  | jarr es ps =>
    rcases hbs : buildAux f (jsGetProp (.jarr es ps) part) (nxt :: rrest)
        (nextContainer (nxt :: rrest)) with _ | t2 <;>
      simp [buildAux, hstar, hnum, hguard, h0, jsFalsy, hset, hbs]
  | undef => simp [JVal.isObjLike] at hguard
  | jnull => simp [JVal.isObjLike] at hguard
  | jbool b => simp [JVal.isObjLike] at hguard
  | jnum m => simp [JVal.isObjLike] at hguard
  | jstr t => simp [JVal.isObjLike] at hguard

/-- One step of the numeric branch at an in-bounds index with more tokens
following, when the target holds nothing truthy at that index yet. -/
theorem buildAux_index_hit (f : Nat) (selems : List JVal) (sprops : List (String × JVal))
    (part nxt : String) (rrest : List String) (c : JVal) (n : Int)
    (hstar : (part == "*") = false)
    (hjs : jsNum part = JSNum.int n) (hb : 0 ≤ n ∧ n < (selems.length : Int))
    (ht0 : jsFalsy (jsGetIdx c n.toNat) = true) :
    buildAux (f + 1) (.jarr selems sprops) (part :: nxt :: rrest) c =
      (match buildAux f (selems.getD n.toNat .undef) (nxt :: rrest) (JVal.jobj []) with
       | some t2 => jsSetIdx c n.toNat t2
       | none => none) := by
  have hnn : n.toNat < selems.length := by omega
  rcases hbs : buildAux f (selems.getD n.toNat .undef) (nxt :: rrest)
      (JVal.jobj []) with _ | t2 <;>
    (rw [List.getD_eq_getElem _ _ hnn] at hbs
     simp [buildAux, hstar, hjs, hb, ht0, hbs])

/-- A wildcard-free, integer-indexed spec whose walk never reaches an
assignment builds only hereditarily empty scaffolding into a fresh
container. -/
theorem build_miss_he : ∀ (parts : List String) (source c : JVal),
    noWildcard parts = true →
    intIndexed parts = true →
    specResolves source parts = false →
    (c = JVal.jobj [] ∨ (c = JVal.jarr [] [] ∧ headNumeric parts = true)) →
    ∃ t, buildStructureFromPath source parts c = some t ∧
      heVal t = true ∧ (c = JVal.jobj [] → ∃ ps, t = JVal.jobj ps) := by
  intro parts
  induction parts with
  | nil =>
    intro source c _ _ _ hc
    have hcbase : heVal c = true := by
      rcases hc with h | ⟨h, _⟩ <;> subst h <;> rfl
    exact ⟨c, rfl, hcbase, fun h => ⟨[], h⟩⟩
  | cons part rest ih =>
    intro source c hnw hii hres hc
    have hcbase : heVal c = true := by
      rcases hc with h | ⟨h, _⟩ <;> subst h <;> rfl
    have hcshape : c = JVal.jobj [] → ∃ ps, c = JVal.jobj ps := fun h => ⟨[], h⟩
    have hnw2 : (!(part == "*")) = true ∧ List.all rest (fun p => !(p == "*")) = true := by
      simpa [noWildcard, List.all_cons, Bool.and_eq_true] using hnw
    have hstar : (part == "*") = false := by simpa using hnw2.1
    have hnwr : noWildcard rest = true := hnw2.2
    have hii2 : (match jsNum part with | JSNum.frac _ _ => false | _ => true) = true
        ∧ intIndexed rest = true := by
      simpa [intIndexed, List.all_cons, Bool.and_eq_true] using hii
    have hiir : intIndexed rest = true := hii2.2
    by_cases hnum : jsNum part = JSNum.nan
    · -- literal token
      have hcobj : c = JVal.jobj [] := by
        rcases hc with h | ⟨_, hh⟩
        · exact h
        · exfalso; simp [headNumeric, hnum] at hh
      subst hcobj
      by_cases hguard : (JVal.isObjLike source && jsHasOwn source part) = true
      · cases rest with
        | nil =>
          exfalso
          simp [specResolves, hstar, hnum, hguard] at hres
        | cons nxt rrest =>
          have hres2 : specResolves (jsGetProp source part) (nxt :: rrest) = false := by
            simpa [specResolves, hstar, hnum, hguard] using hres
          have hstarn : (nxt == "*") = false := by
            have h : (!(nxt == "*")) = true ∧ List.all rrest (fun p => !(p == "*")) = true := by
              simpa [noWildcard, List.all_cons, Bool.and_eq_true] using hnwr
            simpa using h.1
          have hcont : nextContainer (nxt :: rrest) = JVal.jobj []
              ∨ (nextContainer (nxt :: rrest) = JVal.jarr [] []
                ∧ headNumeric (nxt :: rrest) = true) := by
            by_cases hnn : jsNum nxt = JSNum.nan
            · left; simp [nextContainer, hstarn, hnn]
            · right
              constructor
              · simp [nextContainer, hstarn, hnn]
              · simp [headNumeric, hnn]
          obtain ⟨t2, hbuild2, hhe2, _⟩ :=
            ih (jsGetProp source part) _ hnwr hiir hres2 hcont
          refine ⟨JVal.jobj [(part, t2)], ?_, ?_, fun _ => ⟨[(part, t2)], rfl⟩⟩
          · show buildAux ((nxt :: rrest).length + 1) source (part :: nxt :: rrest)
                (.jobj []) = _
            rw [buildAux_literal_hit (nxt :: rrest).length source part nxt rrest
              hstar hnum hguard, buildAux_as_wrapper, hbuild2]
          · simp [heVal, heProps, hhe2]
      · have hguard2 : (JVal.isObjLike source && jsHasOwn source part) = false := by
          simpa using hguard
        exact ⟨JVal.jobj [], build_literal_absent source part rest (JVal.jobj []) hstar
          hnum hguard2, hcbase, hcshape⟩
    · -- numeric token
      rcases hjs : jsNum part with _ | n | ⟨num, k⟩ | pos
      · exact absurd hjs hnum
      · cases source with
        | jarr selems sprops =>
          by_cases hb : 0 ≤ n ∧ n < (selems.length : Int)
          · cases rest with
            | nil =>
              exfalso
              simp [specResolves, hstar, hjs, hb] at hres
            | cons nxt rrest =>
              have hres2 : specResolves (selems.getD n.toNat .undef) (nxt :: rrest)
                  = false := by
                simpa [specResolves, hstar, hjs, hb] using hres
              obtain ⟨t2, hbuild2, hhe2, _⟩ :=
                ih (selems.getD n.toNat .undef) (JVal.jobj []) hnwr hiir hres2 (Or.inl rfl)
              rcases hc with hcL | ⟨hcR, _⟩
              · subst hcL
                refine ⟨JVal.jobj [(toString n.toNat, t2)], ?_, ?_,
                  fun _ => ⟨[(toString n.toNat, t2)], rfl⟩⟩
                · show buildAux ((nxt :: rrest).length + 1) (.jarr selems sprops)
                      (part :: nxt :: rrest) (.jobj []) = _
                  rw [buildAux_index_hit (nxt :: rrest).length selems sprops part nxt
                    rrest _ n hstar hjs hb (by simp [jsGetIdx, jsFalsy]),
                    buildAux_as_wrapper, hbuild2]
                  simp [jsSetIdx, setAssoc]
                · simp [heVal, heProps, hhe2]
              · subst hcR
                refine ⟨JVal.jarr (List.replicate n.toNat JVal.undef ++ [t2]) [], ?_, ?_,
                  fun h => nomatch h⟩
                · show buildAux ((nxt :: rrest).length + 1) (.jarr selems sprops)
                      (part :: nxt :: rrest) (.jarr [] []) = _
                  rw [buildAux_index_hit (nxt :: rrest).length selems sprops part nxt
                    rrest _ n hstar hjs hb (by simp [jsGetIdx, jsFalsy]),
                    buildAux_as_wrapper, hbuild2]
                  simp [jsSetIdx, padSet]
                · simp [heVal, heElems_replicate_append _ _ hhe2]
          · exact ⟨c, build_index_out_of_bounds selems sprops part rest c n hjs hb,
              hcbase, hcshape⟩
        | undef =>
          exact ⟨c, build_numeric_nonarray _ part rest c hstar hnum rfl, hcbase, hcshape⟩
        | jnull =>
          exact ⟨c, build_numeric_nonarray _ part rest c hstar hnum rfl, hcbase, hcshape⟩
        | jbool b =>
          exact ⟨c, build_numeric_nonarray _ part rest c hstar hnum rfl, hcbase, hcshape⟩
        | jnum m =>
          exact ⟨c, build_numeric_nonarray _ part rest c hstar hnum rfl, hcbase, hcshape⟩
        | jstr t =>
          exact ⟨c, build_numeric_nonarray _ part rest c hstar hnum rfl, hcbase, hcshape⟩
        | jobj props =>
          exact ⟨c, build_numeric_nonarray _ part rest c hstar hnum rfl, hcbase, hcshape⟩
      · -- finite non-integer token: excluded by the integer-index hypothesis
        exfalso
        have h := hii2.1
        rw [hjs] at h
        simp at h
      · exact ⟨c, build_numeric_infinite source part rest c hstar pos hjs, hcbase, hcshape⟩

end MissLemmas

/-- C7: an Index(n) token that is out of bounds for the source array
contributes nothing (the target is returned untouched); a wildcard-free
spec whose numeric tokens are all integer-valued (the Index(n) shape of
the path grammar) and whose walk reaches no assignment leaves no empty
containers after pruning (its whole run on a fresh target cleans up to
the empty object); and on the scenario input, the specs
personBasic.names[10].firstName and personid produce exactly the object
carrying personid alone, with no personBasic key. -/
theorem c7_out_of_bounds_index_contributes_nothing :
    (∀ (selems : List JVal) (sprops : List (String × JVal)) (part : String)
        (rest : List String) (target : JVal) (n : Int),
        jsNum part = JSNum.int n →
        ¬ (0 ≤ n ∧ n < (selems.length : Int)) →
        JsonFieldFilter.buildStructureFromPath (.jarr selems sprops) (part :: rest) target
          = some target) ∧
    (∀ (source : JVal) (parts : List String),
        JsonFieldFilter.noWildcard parts = true →
        JsonFieldFilter.intIndexed parts = true →
        JsonFieldFilter.specResolves source parts = false →
        ∃ t, JsonFieldFilter.buildStructureFromPath source parts (.jobj []) = some t ∧
          JsonFieldFilter.cleanupEmptyStructures t = .jobj []) ∧
    JsonFieldFilter.transformValue ["personBasic.names[10].firstName", "personid"] bugsDoc
      = some (.jobj [("personid", .jstr "U1")]) := by
  refine ⟨?_, ?_, by decide⟩
  · intro selems sprops part rest target n hjs hb
    exact build_index_out_of_bounds selems sprops part rest target n hjs hb
  · intro source parts hnw hii hres
    obtain ⟨t, hbuild, hhe, hshape⟩ :=
      build_miss_he parts source (.jobj []) hnw hii hres (Or.inl rfl)
    obtain ⟨ps, rfl⟩ := hshape rfl
    refine ⟨.jobj ps, hbuild, ?_⟩
    have hps : JVal.heProps ps = true := by simpa [JVal.heVal] using hhe
    have hclean := (heClean (JVal.jsizeProps ps)).2.1 ps (Nat.le_refl _) hps
    simp [JsonFieldFilter.cleanupEmptyStructures, hclean]

theorem c7_out_of_bounds_index_contributes_nothing_witness :
    (JsonFieldFilter.buildStructureFromPath
        (.jarr [.jobj [("firstName", .jstr "Bugs")]] []) ("10" :: ["firstName"]) (.jobj [])
      = some (.jobj [])) ∧
    JsonFieldFilter.cleanupEmptyStructures
        ((JsonFieldFilter.buildStructureFromPath bugsDoc
            ["personBasic", "names", "10", "firstName"] (.jobj [])).getD .undef)
      = .jobj [] := by
  constructor
  · exact c7_out_of_bounds_index_contributes_nothing.1
      [.jobj [("firstName", .jstr "Bugs")]] [] "10" ["firstName"] (.jobj []) 10
      (by decide) (by decide)
  · obtain ⟨t, h1, h2⟩ := c7_out_of_bounds_index_contributes_nothing.2.1 bugsDoc
      ["personBasic", "names", "10", "firstName"] (by decide) (by decide) (by decide)
    rw [h1]
    simpa using h2
